import Mathlib

/-!
Verification of the event-sourced stream-processing core of the
`vibedecoding` repository against its natural-language specification.

The development shallowly embeds the TypeScript sources:

* `stream-agents/src/lib/subject_id.ts` — URL normalization and link
  subject ids (`normalizeUrl`, `sha256Short`, `linkSubjectId`);
* `stream-agents/src/lib/work_message.ts` — work-message construction,
  retry and dead-letter records;
* `stream-agents/scripts/router.ts` — the router's event handlers;
* the Kafka → DB materializer (`consume_kafka_materialize.ts`) — DB rows,
  projection handlers as sequences of SQL statements, offset reconciliation;
* the fetcher agent — fetch/extract outcome handling;
* the DB → Kafka outbox forwarder (`publish_events_to_kafka.ts`).

Modelling conventions: JavaScript strings are `String` / `List Char`
(ASCII inputs; `toLowerCase` is modelled on the ASCII range), machine
integers and Kafka offsets are `Nat`, SQL tables are lists of row
structures in physical order, JS `undefined`/`null` are `Option`, and JS
string truthiness is `jsTruthy`.  `new Date().toISOString()` is an
explicit `now : String` input.  The WHATWG URL parser is modelled for
hierarchical `scheme://host[:port][/path][?query][#fragment]` references;
inputs outside that shape take the source's catch-branch (returned
unchanged), and percent-encoding and dot-segment normalization are out of
scope of the model.
-/

set_option maxRecDepth 10000

/-- JavaScript string truthiness for an optional string: `undefined`,
`null` and `""` are falsy, every other string is truthy. -/
def jsTruthy : Option String → Bool
  | none => false
  | some s => !s.isEmpty

/-- ASCII lower-casing of one character, the fragment of JS
`toLowerCase` exercised by scheme and host strings. -/
def lowerChar (c : Char) : Char :=
  if 65 ≤ c.toNat ∧ c.toNat ≤ 90 then Char.ofNat (c.toNat + 32) else c

/-- Lexicographic comparison of char lists by code unit, the order JS
`Array.prototype.sort`'s default comparator induces on strings. -/
def listLe : List Char → List Char → Bool
  | [], _ => true
  | _ :: _, [] => false
  | a :: as, b :: bs =>
    if a.toNat < b.toNat then true
    else if b.toNat < a.toNat then false
    else listLe as bs

/-- Split a char list at every occurrence of `sep`, keeping empty
segments (the behaviour of `String.prototype.split`). -/
def splitOnChar (sep : Char) (l : List Char) : List (List Char) :=
  l.foldr (fun c acc =>
    match acc with
    | [] => [[c]]
    | cur :: rest => if c = sep then [] :: cur :: rest else (c :: cur) :: rest) [[]]

namespace Sha256

/-!
SHA-256 (FIPS 180-4) over byte lists, embedding the digest the source
obtains from node's `createHash("sha256")`.  Words are `Nat` reduced
modulo `2 ^ 32`.
-/

def M32 : Nat := 4294967296

def add32 (a b : Nat) : Nat := (a + b) % M32

def rotr (n x : Nat) : Nat := (x / 2 ^ n + x % 2 ^ n * 2 ^ (32 - n)) % M32

def ch (x y z : Nat) : Nat := (x &&& y) ^^^ ((x ^^^ 4294967295) &&& z)

def maj (x y z : Nat) : Nat := (x &&& y) ^^^ (x &&& z) ^^^ (y &&& z)

def bsig0 (x : Nat) : Nat := rotr 2 x ^^^ rotr 13 x ^^^ rotr 22 x

def bsig1 (x : Nat) : Nat := rotr 6 x ^^^ rotr 11 x ^^^ rotr 25 x

def ssig0 (x : Nat) : Nat := rotr 7 x ^^^ rotr 18 x ^^^ x / 2 ^ 3

def ssig1 (x : Nat) : Nat := rotr 17 x ^^^ rotr 19 x ^^^ x / 2 ^ 10

def K : List Nat :=
  [1116352408, 1899447441, 3049323471, 3921009573, 961987163, 1508970993, 2453635748, 2870763221,
   3624381080, 310598401, 607225278, 1426881987, 1925078388, 2162078206, 2614888103, 3248222580,
   3835390401, 4022224774, 264347078, 604807628, 770255983, 1249150122, 1555081692, 1996064986,
   2554220882, 2821834349, 2952996808, 3210313671, 3336571891, 3584528711, 113926993, 338241895,
   666307205, 773529912, 1294757372, 1396182291, 1695183700, 1986661051, 2177026350, 2456956037,
   2730485921, 2820302411, 3259730800, 3345764771, 3516065817, 3600352804, 4094571909, 275423344,
   430227734, 506948616, 659060556, 883997877, 958139571, 1322822218, 1537002063, 1747873779,
   1955562222, 2024104815, 2227730452, 2361852424, 2428436474, 2756734187, 3204031479, 3329325298]

def lenBytes64 (n : Nat) : List Nat :=
  [n / 2 ^ 56 % 256, n / 2 ^ 48 % 256, n / 2 ^ 40 % 256, n / 2 ^ 32 % 256,
   n / 2 ^ 24 % 256, n / 2 ^ 16 % 256, n / 2 ^ 8 % 256, n % 256]

def padMessage (msg : List Nat) : List Nat :=
  let r := (msg.length + 1) % 64
  msg ++ [128] ++ List.replicate ((120 - r) % 64) 0 ++ lenBytes64 (msg.length * 8)

def wordsOfBytes : List Nat → List Nat
  | b0 :: b1 :: b2 :: b3 :: rest => (((b0 * 256 + b1) * 256 + b2) * 256 + b3) :: wordsOfBytes rest
  | _ => []

/-- Split into 64-byte blocks; the first argument is structural fuel, in
every use at least the number of blocks. -/
def chunksF : Nat → List Nat → List (List Nat)
  | 0, _ => []
  | _, [] => []
  | n + 1, l => l.take 64 :: chunksF n (l.drop 64)

def wAt (w : List Nat) (i : Nat) : Nat := w.getD i 0

def extendStep (w : List Nat) : List Nat :=
  let n := w.length
  w ++ [add32 (add32 (ssig1 (wAt w (n - 2))) (wAt w (n - 7)))
          (add32 (ssig0 (wAt w (n - 15))) (wAt w (n - 16)))]

def extendSchedule : Nat → List Nat → List Nat
  | 0, w => w
  | n + 1, w => extendSchedule n (extendStep w)

structure H8 where
  a : Nat
  b : Nat
  c : Nat
  d : Nat
  e : Nat
  f : Nat
  g : Nat
  h : Nat

def compressStep (s : H8) (kw : Nat × Nat) : H8 :=
  let t1 := add32 (add32 (add32 s.h (bsig1 s.e)) (add32 (ch s.e s.f s.g) kw.1)) kw.2
  let t2 := add32 (bsig0 s.a) (maj s.a s.b s.c)
  ⟨add32 t1 t2, s.a, s.b, s.c, add32 s.d t1, s.e, s.f, s.g⟩

def initH : H8 :=
  ⟨1779033703, 3144134277, 1013904242, 2773480762, 1359893119, 2600822924, 528734635, 1541459225⟩

def processBlock (s : H8) (block : List Nat) : H8 :=
  let w := extendSchedule 48 (wordsOfBytes block)
  let t := (K.zip w).foldl compressStep s
  ⟨add32 s.a t.a, add32 s.b t.b, add32 s.c t.c, add32 s.d t.d,
   add32 s.e t.e, add32 s.f t.f, add32 s.g t.g, add32 s.h t.h⟩

def word4 (n : Nat) : List Nat := [n / 2 ^ 24 % 256, n / 2 ^ 16 % 256, n / 2 ^ 8 % 256, n % 256]

def sha256Bytes (msg : List Nat) : List Nat :=
  let s := (chunksF (msg.length + 72) (padMessage msg)).foldl processBlock initH
  word4 s.a ++ word4 s.b ++ word4 s.c ++ word4 s.d ++ word4 s.e ++ word4 s.f ++ word4 s.g ++ word4 s.h

def hexChar (n : Nat) : Char := if n < 10 then Char.ofNat (48 + n) else Char.ofNat (87 + n)

def byteHex (b : Nat) : List Char := [hexChar (b / 16), hexChar (b % 16)]

end Sha256

/-- Embeds `sha256Short` of `subject_id.ts`: hex SHA-256 digest truncated
to its first 16 characters.  The byte encoding maps each char to its code
point, which agrees with the source's UTF-8 for the ASCII inputs in use. -/
def sha256Short (s : String) : String :=
  String.mk ((((Sha256.sha256Bytes (s.data.map Char.toNat)).map Sha256.byteHex).flatten).take 16)

/-- Components of a parsed hierarchical URL, the slice of the WHATWG `URL`
object the source reads and writes (`protocol`, `hostname`, `port`,
`pathname`, `search`, `hash`). -/
structure ParsedUrl where
  scheme : List Char
  host : List Char
  port : List Char
  path : List Char
  query : List Char
  fragment : List Char
deriving DecidableEq

/-- ASCII letters, digits, `+`, `-`, `.` — the characters a URL scheme
may contain. -/
def isSchemeChar (c : Char) : Bool :=
  (65 ≤ c.toNat && c.toNat ≤ 90) || (97 ≤ c.toNat && c.toNat ≤ 122) ||
    (48 ≤ c.toNat && c.toNat ≤ 57) || c == '+' || c == '-' || c == '.'

/-- ASCII digits, the characters a port may contain. -/
def isDigitChar (c : Char) : Bool := 48 ≤ c.toNat && c.toNat ≤ 57

def isAuthChar (c : Char) : Bool := c != '/' && c != '?'

/-- Model of `new URL(url)` for hierarchical references: scheme up to
`"://"`, authority up to `/`, `?` or `#`, host/port split at `:`, path up
to `?` or `#`, query up to `#`, fragment after the first `#`.  As in the
WHATWG parser for special schemes, an absent path becomes `/`, an empty
host or a non-numeric port is a parse error (`none`, the source's catch
branch). -/
def urlScheme (cs : List Char) : List Char := cs.takeWhile isSchemeChar

/-- Everything of the part after `"://"` before the first `#`. -/
def urlBeforeFrag (rest2 : List Char) : List Char := rest2.takeWhile (fun c => c != '#')

/-- The fragment: what follows the first `#`, when one is present. -/
def urlFragment (rest2 : List Char) : List Char :=
  match rest2.drop (urlBeforeFrag rest2).length with
  | '#' :: f => f
  | _ => []

/-- The authority: up to the first `/` or `?` (within the pre-fragment
part). -/
def urlAuth (rest2 : List Char) : List Char := (urlBeforeFrag rest2).takeWhile isAuthChar

def urlAfterAuth (rest2 : List Char) : List Char :=
  (urlBeforeFrag rest2).drop (urlAuth rest2).length

def urlHost (rest2 : List Char) : List Char := (urlAuth rest2).takeWhile (fun c => c != ':')

def urlPort (rest2 : List Char) : List Char :=
  match (urlAuth rest2).drop (urlHost rest2).length with
  | ':' :: p => p
  | _ => []

def urlPath0 (rest2 : List Char) : List Char :=
  (urlAfterAuth rest2).takeWhile (fun c => c != '?')

/-- The path; absent paths become `/` as the WHATWG parser does for
special schemes. -/
def urlPath (rest2 : List Char) : List Char :=
  if urlPath0 rest2 = [] then ['/'] else urlPath0 rest2

def urlQuery (rest2 : List Char) : List Char :=
  match (urlAfterAuth rest2).drop (urlPath0 rest2).length with
  | '?' :: q => q
  | _ => []

def parseUrl (cs : List Char) : Option ParsedUrl :=
  if urlScheme cs = [] then none
  else
    match cs.drop (urlScheme cs).length with
    | ':' :: '/' :: '/' :: rest2 =>
      if urlHost rest2 = [] then none
      else if (urlPort rest2).all isDigitChar = false then none
      else
        some ⟨urlScheme cs, urlHost rest2, urlPort rest2, urlPath rest2, urlQuery rest2,
          urlFragment rest2⟩
    | _ => none

/-- The value part of a `k=v` segment: the tail after a leading `=`,
else empty. -/
def eqTail : List Char → List Char
  | '=' :: v => v
  | _ => []

/-- One `URLSearchParams` segment: the key up to the first `=`, the value
after it; an empty segment is dropped. -/
def parsePair (seg : List Char) : Option (List Char × List Char) :=
  if seg = [] then none
  else
    let k := seg.takeWhile (fun c => c != '=')
    some (k, eqTail (seg.drop k.length))

/-- Model of `new URLSearchParams(search)`: split on `&`, drop empty
segments, split each segment at its first `=` (absent `=` means empty
value). -/
def parseQuery (q : List Char) : List (List Char × List Char) :=
  (splitOnChar '&' q).filterMap parsePair

/-- Model of `URLSearchParams.toString` (percent-encoding out of model
scope): `k=v` pairs joined by `&`. -/
def serializeQuery : List (List Char × List Char) → List Char
  | [] => []
  | [p] => p.1 ++ '=' :: p.2
  | p :: rest => p.1 ++ '=' :: p.2 ++ '&' :: serializeQuery rest

/-- The string JS builds for an entry `[k, v]` before comparing in
`Array.prototype.sort()` without a comparator. -/
def pairKey (p : List Char × List Char) : List Char := p.1 ++ ',' :: p.2

def pairRel (x y : List Char × List Char) : Prop := listLe (pairKey x) (pairKey y) = true

instance : DecidableRel pairRel := fun _ _ => inferInstanceAs (Decidable (_ = true))

/-- Model of `[...params.entries()].sort()`: a stable sort under the
default string comparator. -/
def sortPairs (ps : List (List Char × List Char)) : List (List Char × List Char) :=
  List.insertionSort pairRel ps

/-- The mutations `normalizeUrl` performs on the parsed URL: lower-case
scheme and host, drop default ports, sort query parameters, erase the
fragment. -/
def normScheme (p : ParsedUrl) : List Char := p.scheme.map lowerChar

def normHost (p : ParsedUrl) : List Char := p.host.map lowerChar

/-- The default-port removal, performed after the scheme was
lower-cased. -/
def normPort (p : ParsedUrl) : List Char :=
  if (normScheme p = "http".data ∧ p.port = "80".data) ∨
      (normScheme p = "https".data ∧ p.port = "443".data)
  then [] else p.port

def normQuery (p : ParsedUrl) : List Char :=
  serializeQuery (sortPairs (parseQuery p.query))

def normParsed (p : ParsedUrl) : ParsedUrl :=
  ⟨normScheme p, normHost p, normPort p, p.path, normQuery p, []⟩

/-- Model of `URL.toString()` on the mutated object. -/
def serializeUrl (p : ParsedUrl) : List Char :=
  p.scheme ++ ':' :: '/' :: '/' :: p.host ++
    (if p.port = [] then [] else ':' :: p.port) ++
    p.path ++
    (if p.query = [] then [] else '?' :: p.query) ++
    (if p.fragment = [] then [] else '#' :: p.fragment)

/-- The source's final-step test `normalized.endsWith("/") &&
parsed.pathname !== "/"`. -/
def trimCond (path s : List Char) : Bool := s.getLast? == some '/' && path != ['/']

/-- Embeds `normalizeUrl` of `subject_id.ts` on char lists: parse, apply
the mutations, serialize, then `slice(0, -1)` when `trimCond` holds; a
parse failure returns the input unchanged (the source's catch branch). -/
def normalizeChars (cs : List Char) : List Char :=
  match parseUrl cs with
  | none => cs
  | some p =>
    if trimCond p.path (serializeUrl (normParsed p)) then
      (serializeUrl (normParsed p)).dropLast
    else serializeUrl (normParsed p)

/-- Embeds `normalizeUrl` of `subject_id.ts`. -/
def normalizeUrl (s : String) : String := String.mk (normalizeChars s.data)

/-- Embeds `linkSubjectId` of `subject_id.ts`. -/
def linkSubjectId (url : String) : String :=
  "link:" ++ sha256Short (normalizeUrl url)

/-- SQL `COALESCE(a, b)` on nullable strings. -/
def coalesce (a b : Option String) : Option String :=
  match a with
  | some v => some v
  | none => b

inductive WorkType where
  | fetch_link
  | enrich_link
  | publish_link
deriving DecidableEq

/-- Embeds `DEFAULT_MAX_ATTEMPTS` of `work_message.ts`. -/
def DEFAULT_MAX_ATTEMPTS : WorkType → Nat
  | .fetch_link => 3
  | .enrich_link => 3
  | .publish_link => 3

/-- Embeds `WORK_TYPE_TO_TOPIC` of `work_message.ts`. -/
def WORK_TYPE_TO_TOPIC : WorkType → String
  | .fetch_link => "work.fetch_link"
  | .enrich_link => "work.enrich_link"
  | .publish_link => "work.publish_link"

/-- Embeds `WORK_TOPICS.DEAD_LETTER` of `work_message.ts`. -/
def DEAD_LETTER_TOPIC : String := "work.dead_letter"

/-- The minimal work payloads the router emits: `{url}` for fetch,
`{title, text_content}` for enrich, `{}` for publish. -/
structure WorkPayload where
  url : Option String
  title : Option String
  text_content : Option String
deriving DecidableEq

/-- Embeds the `WorkMessage` interface of `work_message.ts`. -/
structure WorkMessage where
  subject_id : String
  work_type : WorkType
  correlation_id : String
  triggered_by_event_id : String
  attempt : Nat
  max_attempts : Nat
  created_at : String
  last_error : Option String
  payload : WorkPayload
deriving DecidableEq

/-- Embeds the `DeadLetterMessage` interface of `work_message.ts`. -/
structure DeadLetterMessage where
  original_work : WorkMessage
  final_error : String
  failed_at : String
  agent : String
deriving DecidableEq

/-- Embeds `createWorkMessage`; the source's `options` object is the two
trailing `Option` arguments and `new Date().toISOString()` is `now`. -/
def createWorkMessage (workType : WorkType) (subjectId triggeredByEventId correlationId : String)
    (payload : WorkPayload) (attemptOpt : Option Nat) (lastErrorOpt : Option String)
    (now : String) : WorkMessage :=
  { subject_id := subjectId
    work_type := workType
    correlation_id := correlationId
    triggered_by_event_id := triggeredByEventId
    attempt := attemptOpt.getD 1
    max_attempts := DEFAULT_MAX_ATTEMPTS workType
    created_at := now
    last_error := lastErrorOpt
    payload := payload }

/-- Embeds `createRetryWorkMessage`: the spread of the original work with
`attempt + 1`, a fresh `created_at` and `last_error` set. -/
def createRetryWorkMessage (originalWork : WorkMessage) (error : String) (now : String) : WorkMessage :=
  { originalWork with
    attempt := originalWork.attempt + 1
    created_at := now
    last_error := some error }

/-- Embeds `createDeadLetterMessage`. -/
def createDeadLetterMessage (originalWork : WorkMessage) (finalError agent now : String) :
    DeadLetterMessage :=
  { original_work := originalWork, final_error := finalError, failed_at := now, agent := agent }

/-- Embeds `shouldRetry`. -/
def shouldRetry (work : WorkMessage) : Bool :=
  decide (work.attempt < work.max_attempts)

/-- The event payload fields read by the materializer, the router and the
workers; every field is optional as in the source's destructuring of the
JSON document. -/
structure EventPayload where
  url : Option String
  url_norm : Option String
  final_url : Option String
  title : Option String
  text_content : Option String
  html_storage_key : Option String
  fetch_error : Option String
  tags : Option (List String)
  summary_short : Option String
  summary_long : Option String
  summary : Option String
  language : Option String
  model_version : Option String
  visibility : Option String
  work_message : Option WorkMessage
  error : Option String
  agent : Option String
deriving DecidableEq

/-- An all-absent payload, for building concrete events. -/
def payload0 : EventPayload :=
  ⟨none, none, none, none, none, none, none, none, none, none, none, none, none, none, none,
   none, none⟩

/-- Embeds the `LifestreamEvent` interface shared by router and
materializer. -/
structure LifestreamEvent where
  id : String
  occurred_at : String
  received_at : String
  source : String
  subject : String
  subject_id : String
  event_type : String
  payload : EventPayload
  correlation_id : Option String
  causation_id : Option String
deriving DecidableEq

/-- Row of `lifestream.subjects`. -/
structure SubjectRow where
  subject : String
  subject_id : String
  created_at : String
  display_name : Option String
  visibility : String
  meta : String
deriving DecidableEq

/-- Row of `lifestream.links`; `retry_count`, `last_error_at` and
`last_error` carry the table defaults `0` / `NULL` when an insert omits
them. -/
structure LinkRow where
  subject_id : String
  url : String
  url_norm : String
  created_at : String
  source : String
  status : String
  visibility : String
  pinned : Bool
  retry_count : Nat
  last_error_at : Option String
  last_error : Option String
deriving DecidableEq

/-- Row of `lifestream.link_content`. -/
structure LinkContentRow where
  subject_id : String
  final_url : Option String
  title : Option String
  text_content : Option String
  html_storage_key : Option String
  fetched_at : Option String
  fetch_error : Option String
deriving DecidableEq

/-- Row of `lifestream.link_metadata`; `tags` is `NOT NULL DEFAULT '\x7b\x7d'`. -/
structure LinkMetadataRow where
  subject_id : String
  tags : List String
  summary_short : Option String
  summary_long : Option String
  language : Option String
  model_version : Option String
deriving DecidableEq

/-- Row of `lifestream.publish_state`. -/
structure PublishStateRow where
  subject_id : String
  desired_version : Nat
  published_version : Nat
  dirty : Bool
  last_published_at : Option String
deriving DecidableEq

/-- Row of `lifestream.event_ingest_dedupe`, the idempotency ledger. -/
structure DedupeRow where
  topic : String
  partition : Nat
  kafka_offset : Nat
deriving DecidableEq

/-- Row of `lifestream.kafka_offsets`, the consumer-progress store. -/
structure OffsetRow where
  consumer_group : String
  topic : String
  partition : Nat
  last_offset : Nat
deriving DecidableEq

/-- The relational state the materializer and the router touch; each
table is its list of rows in physical order.  The sensor, todo and
annotation tables are disjoint from the link pipeline and outside the
model. -/
structure DbState where
  subjects : List SubjectRow
  links : List LinkRow
  link_content : List LinkContentRow
  link_metadata : List LinkMetadataRow
  publish_state : List PublishStateRow
  dedupe : List DedupeRow
  kafka_offsets : List OffsetRow
deriving DecidableEq

/-- The materializer's consumer group and topic constants. -/
def MAT_CONSUMER_GROUP : String := "materializer-v1"

def EVENTS_TOPIC : String := "events.raw"

/-- One SQL statement of `handleLinkAdded`: insert into subjects
`ON CONFLICT (subject, subject_id) DO NOTHING`. -/
def stmtInsertSubject (subject sid createdAt visibility meta : String) (db : DbState) : DbState :=
  if db.subjects.any (fun r => r.subject == subject && r.subject_id == sid) then db
  else { db with subjects := db.subjects ++ [⟨subject, sid, createdAt, none, visibility, meta⟩] }

/-- One SQL statement of `handleLinkAdded`: insert into links
`ON CONFLICT (subject_id) DO NOTHING` with `status='new'`,
`visibility='public'`, `pinned=false`. -/
def stmtInsertLink (sid url urlNorm createdAt source : String) (db : DbState) : DbState :=
  if db.links.any (fun r => r.subject_id == sid) then db
  else
    { db with links :=
        db.links ++ [⟨sid, url, urlNorm, createdAt, source, "new", "public", false, 0, none, none⟩] }

/-- The `link_content` upsert of `handleContentFetched`: on conflict,
`COALESCE(EXCLUDED.x, old.x)` for the content columns but plain
`EXCLUDED` overwrite for `fetched_at` and `fetch_error`. -/
def stmtUpsertLinkContent (sid : String) (finalUrl title textContent htmlKey fetchError : Option String)
    (fetchedAt : String) (db : DbState) : DbState :=
  if db.link_content.any (fun r => r.subject_id == sid) then
    { db with link_content := db.link_content.map fun r =>
        if r.subject_id == sid then
          ⟨r.subject_id, coalesce finalUrl r.final_url, coalesce title r.title,
            coalesce textContent r.text_content, coalesce htmlKey r.html_storage_key,
            some fetchedAt, fetchError⟩
        else r }
  else
    { db with link_content :=
        db.link_content ++ [⟨sid, finalUrl, title, textContent, htmlKey, some fetchedAt, fetchError⟩] }

/-- The error-branch `UPDATE` of `handleContentFetched`: status `error`,
`retry_count + 1`, `last_error*` set — with no guard on the old status. -/
def stmtLinksSetError (sid fetchError now : String) (db : DbState) : DbState :=
  { db with links := db.links.map fun r =>
      if r.subject_id == sid then
        { r with
          status := "error"
          retry_count := r.retry_count + 1
          last_error_at := some now
          last_error := some fetchError }
      else r }

/-- The success-branch `UPDATE` of `handleContentFetched`: status
`fetched`, restricted to rows whose status is `new`. -/
def stmtLinksSetFetched (sid : String) (db : DbState) : DbState :=
  { db with links := db.links.map fun r =>
      if r.subject_id == sid && r.status == "new" then
        { r with status := "fetched", last_error := none }
      else r }

/-- The `link_metadata` upsert of `handleEnrichmentCompleted`: the tag
`CASE` prefers a non-empty incoming set, else a non-empty existing set;
the text columns coalesce. -/
def stmtUpsertLinkMetadata (sid : String) (tags : List String)
    (summaryShort summaryLong language modelVersion : Option String) (db : DbState) : DbState :=
  if db.link_metadata.any (fun r => r.subject_id == sid) then
    { db with link_metadata := db.link_metadata.map fun r =>
        if r.subject_id == sid then
          ⟨r.subject_id,
            (if !tags.isEmpty then tags else if !r.tags.isEmpty then r.tags else tags),
            coalesce summaryShort r.summary_short, coalesce summaryLong r.summary_long,
            coalesce language r.language, coalesce modelVersion r.model_version⟩
        else r }
  else
    { db with link_metadata :=
        db.link_metadata ++ [⟨sid, tags, summaryShort, summaryLong, language, modelVersion⟩] }

/-- The status `UPDATE` of `handleEnrichmentCompleted`: promote to
`enriched` from `new` or `fetched` only. -/
def stmtLinksSetEnriched (sid : String) (db : DbState) : DbState :=
  { db with links := db.links.map fun r =>
      if r.subject_id == sid && (r.status == "new" || r.status == "fetched") then
        { r with status := "enriched" }
      else r }

/-- The `publish_state` upsert of `handleEnrichmentCompleted`: insert
`(1, 0, dirty)` or bump `desired_version` and set `dirty`. -/
def stmtBumpPublishState (sid : String) (db : DbState) : DbState :=
  if db.publish_state.any (fun r => r.subject_id == sid) then
    { db with publish_state := db.publish_state.map fun r =>
        if r.subject_id == sid then
          { r with desired_version := r.desired_version + 1, dirty := true }
        else r }
  else { db with publish_state := db.publish_state ++ [⟨sid, 1, 0, true, none⟩] }

/-- The `publish_state` `UPDATE` of `handlePublishCompleted`. -/
def stmtPublishStateComplete (sid occurredAt : String) (db : DbState) : DbState :=
  { db with publish_state := db.publish_state.map fun r =>
      if r.subject_id == sid then
        { r with
          published_version := r.desired_version
          dirty := false
          last_published_at := some occurredAt }
      else r }

/-- The status `UPDATE` of `handlePublishCompleted` — with no guard on
the old status. -/
def stmtLinksSetPublished (sid : String) (db : DbState) : DbState :=
  { db with links := db.links.map fun r =>
      if r.subject_id == sid then { r with status := "published" } else r }

/-- First statement of `recordProcessed`: insert into the idempotency
ledger `ON CONFLICT DO NOTHING`. -/
def stmtInsertDedupe (topic : String) (partition offset : Nat) (db : DbState) : DbState :=
  if db.dedupe.any (fun r => r.topic == topic && r.partition == partition && r.kafka_offset == offset)
  then db
  else { db with dedupe := db.dedupe ++ [⟨topic, partition, offset⟩] }

/-- Second statement of `recordProcessed`: upsert consumer progress. -/
def stmtUpsertOffset (group topic : String) (partition offset : Nat) (db : DbState) : DbState :=
  if db.kafka_offsets.any
      (fun r => r.consumer_group == group && r.topic == topic && r.partition == partition) then
    { db with kafka_offsets := db.kafka_offsets.map fun r =>
        if r.consumer_group == group && r.topic == topic && r.partition == partition then
          { r with last_offset := offset }
        else r }
  else { db with kafka_offsets := db.kafka_offsets ++ [⟨group, topic, partition, offset⟩] }

/-- The SQL statements `handleLinkAdded` issues, in order; a falsy `url`
is the early-return path.  `url_norm ?? normalizeUrl(url)` keeps a
present-but-empty `url_norm`. -/
def handleLinkAddedStmts (ev : LifestreamEvent) : List (DbState → DbState) :=
  if jsTruthy ev.payload.url = false then []
  else
    let url := ev.payload.url.getD ""
    let normalized := ev.payload.url_norm.getD (normalizeUrl url)
    [stmtInsertSubject "link" ev.subject_id ev.occurred_at "public" "\x7b\x7d",
     stmtInsertLink ev.subject_id url normalized ev.occurred_at ev.source]

/-- The SQL statements `handleContentFetched` issues, in order: the
content upsert, then exactly one of the two status updates. -/
def handleContentFetchedStmts (ev : LifestreamEvent) (now : String) : List (DbState → DbState) :=
  stmtUpsertLinkContent ev.subject_id ev.payload.final_url ev.payload.title
      ev.payload.text_content ev.payload.html_storage_key ev.payload.fetch_error ev.occurred_at ::
    (if jsTruthy ev.payload.fetch_error then
      [stmtLinksSetError ev.subject_id (ev.payload.fetch_error.getD "") now]
    else [stmtLinksSetFetched ev.subject_id])

/-- The SQL statements `handleEnrichmentCompleted` issues, in order;
`summary_short ?? summary ?? null` is the coalesce of the two fields. -/
def handleEnrichmentCompletedStmts (ev : LifestreamEvent) : List (DbState → DbState) :=
  [stmtUpsertLinkMetadata ev.subject_id (ev.payload.tags.getD [])
      (coalesce ev.payload.summary_short ev.payload.summary) ev.payload.summary_long
      ev.payload.language ev.payload.model_version,
   stmtLinksSetEnriched ev.subject_id,
   stmtBumpPublishState ev.subject_id]

/-- The SQL statements `handlePublishCompleted` issues, in order. -/
def handlePublishCompletedStmts (ev : LifestreamEvent) : List (DbState → DbState) :=
  [stmtPublishStateComplete ev.subject_id ev.occurred_at, stmtLinksSetPublished ev.subject_id]

/-- The statement list of the materializer's `processEvent` dispatch.
The dispatch has no `link.visibility_changed` case, so such events fall
to the default branch (logged and skipped); the sensor, todo and
annotation cases touch tables outside the model and are likewise outside
it. -/
def processEventStmts (ev : LifestreamEvent) (now : String) : List (DbState → DbState) :=
  match ev.event_type with
  | "link.added" => handleLinkAddedStmts ev
  | "content.fetched" => handleContentFetchedStmts ev now
  | "enrichment.completed" => handleEnrichmentCompletedStmts ev
  | "publish.completed" => handlePublishCompletedStmts ev
  | _ => []

/-- The two statements of `recordProcessed`, in order. -/
def recordProcessedStmts (topic : String) (partition offset : Nat) : List (DbState → DbState) :=
  [stmtInsertDedupe topic partition offset,
   stmtUpsertOffset MAT_CONSUMER_GROUP topic partition offset]

/-- Embeds `isAlreadyProcessed`. -/
def isAlreadyProcessed (db : DbState) (topic : String) (partition offset : Nat) : Bool :=
  db.dedupe.any (fun r => r.topic == topic && r.partition == partition && r.kafka_offset == offset)

/-- Every SQL statement the materializer's `handleMessage` issues for one
message on its success path, in order: the projection writes of
`processEvent`, then the two statements of `recordProcessed`.  Each
statement auto-commits on its own; the source opens no transaction. -/
def handleMessageStmts (ev : LifestreamEvent) (topic : String) (partition offset : Nat)
    (now : String) : List (DbState → DbState) :=
  processEventStmts ev now ++ recordProcessedStmts topic partition offset

/-- Run a list of statements left to right; a crash after `k` statements
is `applyStmts db (stmts.take k)`, since each statement commits on its
own. -/
def applyStmts (db : DbState) (stmts : List (DbState → DbState)) : DbState :=
  stmts.foldl (fun d f => f d) db

/-- The materializer's `handleMessage` success path: the dedupe check,
then the statement sequence. -/
def materializerHandleMessage (db : DbState) (ev : LifestreamEvent) (topic : String)
    (partition offset : Nat) (now : String) : DbState :=
  if isAlreadyProcessed db topic partition offset then db
  else applyStmts db (handleMessageStmts ev topic partition offset now)

/-- The `MAX(kafka_offset)` query of `calculateTargetOffset` over the
idempotency ledger for the events topic, partition 0; `none` is SQL
`NULL` on an empty table. -/
def recordedOffset (dedupe : List DedupeRow) : Option Nat :=
  ((dedupe.filter (fun r => r.topic == EVENTS_TOPIC && r.partition == 0)).map
    (fun r => r.kafka_offset)).max?

/-- The source's `desiredOffset`: the recorded offset plus one, or `0`
when none is recorded. -/
def desiredOffset (dedupe : List DedupeRow) : Nat :=
  match recordedOffset dedupe with
  | some r => r + 1
  | none => 0

/-- Embeds `calculateTargetOffset`: returns the chosen start offset and
the idempotency ledger that remains (the `desired > latest` branch
deletes the ledger rows of the events topic). -/
def calculateTargetOffset (dedupe : List DedupeRow) (earliest latest : Nat) :
    Nat × List DedupeRow :=
  let desired := desiredOffset dedupe
  if desired < earliest then (earliest, dedupe)
  else if latest < desired then (earliest, dedupe.filter (fun r => !(r.topic == EVENTS_TOPIC)))
  else (desired, dedupe)

/-- Embeds the router's `contentAlreadyFetched` query: any
`link_content` row for the subject. -/
def contentAlreadyFetched (db : DbState) (subjectId : String) : Bool :=
  db.link_content.any (fun r => r.subject_id == subjectId)

/-- Embeds the router's `alreadyEnriched` query:
`array_length(tags, 1) > 0` is false on an empty array. -/
def alreadyEnriched (db : DbState) (subjectId : String) : Bool :=
  db.link_metadata.any (fun r => r.subject_id == subjectId && !r.tags.isEmpty)

/-- Embeds the router's `alreadyPublished` query. -/
def alreadyPublished (db : DbState) (subjectId : String) : Bool :=
  db.publish_state.any (fun r =>
    r.subject_id == subjectId && decide (r.desired_version ≤ r.published_version) &&
      r.dirty == false)

/-- A message the router sends to the bus: a work command on a work
topic, or a dead-letter record on the DLQ topic; the key is the subject
id in both cases. -/
inductive RouterEmission where
  | work (topic key : String) (msg : WorkMessage)
  | dead (topic key : String) (msg : DeadLetterMessage)
deriving DecidableEq

/-- Embeds `emitWorkMessage`: the topic comes from `WORK_TYPE_TO_TOPIC`
and the key is the subject id. -/
def emitWorkMessage (w : WorkMessage) : RouterEmission :=
  .work (WORK_TYPE_TO_TOPIC w.work_type) w.subject_id w

/-- Embeds `emitToDeadLetter`. -/
def emitToDeadLetter (originalWork : WorkMessage) (finalError agent now : String) :
    RouterEmission :=
  .dead DEAD_LETTER_TOPIC originalWork.subject_id
    (createDeadLetterMessage originalWork finalError agent now)

/-- Embeds the router's `handleLinkAdded`: skip on a falsy `url` or when
content was already fetched, else emit `fetch_link` work with
`triggered_by_event_id = event.id` and
`correlation_id = event.correlation_id ?? event.id`. -/
def routerHandleLinkAdded (ev : LifestreamEvent) (db : DbState) (now : String) :
    List RouterEmission :=
  if jsTruthy ev.payload.url = false then []
  else if contentAlreadyFetched db ev.subject_id then []
  else
    [emitWorkMessage (createWorkMessage .fetch_link ev.subject_id ev.id
      (ev.correlation_id.getD ev.id) ⟨ev.payload.url, none, none⟩ none none now)]

/-- Embeds the router's `handleContentFetched`: skip on a truthy
`fetch_error`, a falsy `text_content`, or when already enriched, else
emit `enrich_link` work carrying `{title, text_content}`. -/
def routerHandleContentFetched (ev : LifestreamEvent) (db : DbState) (now : String) :
    List RouterEmission :=
  if jsTruthy ev.payload.fetch_error then []
  else if jsTruthy ev.payload.text_content = false then []
  else if alreadyEnriched db ev.subject_id then []
  else
    [emitWorkMessage (createWorkMessage .enrich_link ev.subject_id ev.id
      (ev.correlation_id.getD ev.id) ⟨none, ev.payload.title, ev.payload.text_content⟩
      none none now)]

/-- Embeds the router's `handleEnrichmentCompleted`: skip when the
publish state is already clean, else emit `publish_link` work with an
empty payload. -/
def routerHandleEnrichmentCompleted (ev : LifestreamEvent) (db : DbState) (now : String) :
    List RouterEmission :=
  if alreadyPublished db ev.subject_id then []
  else
    [emitWorkMessage (createWorkMessage .publish_link ev.subject_id ev.id
      (ev.correlation_id.getD ev.id) ⟨none, none, none⟩ none none now)]

/-- Embeds the router's `handleWorkFailed`: a missing `work_message` is
logged and skipped; otherwise retry while `shouldRetry`, else
dead-letter. -/
def routerHandleWorkFailed (ev : LifestreamEvent) (now : String) : List RouterEmission :=
  match ev.payload.work_message with
  | none => []
  | some w =>
    if shouldRetry w then
      [emitWorkMessage (createRetryWorkMessage w (ev.payload.error.getD "") now)]
    else
      [emitToDeadLetter w (ev.payload.error.getD "") (ev.payload.agent.getD "") now]

/-- Embeds the router's `processEvent` dispatch; other event types are
ignored. -/
def routerProcessEvent (ev : LifestreamEvent) (db : DbState) (now : String) :
    List RouterEmission :=
  match ev.event_type with
  | "link.added" => routerHandleLinkAdded ev db now
  | "content.fetched" => routerHandleContentFetched ev db now
  | "enrichment.completed" => routerHandleEnrichmentCompleted ev db now
  | "work.failed" => routerHandleWorkFailed ev now
  | _ => []

/-- Embeds the fetcher's `FetchResult`. -/
structure FetchResult where
  finalUrl : String
  title : Option String
  textContent : Option String
  error : Option String
deriving DecidableEq

/-- Outcome of `new Readability(document).parse()`: an article (with its
`title` and `textContent`), or `null` with the document `<title>` as the
fallback. -/
inductive ReadabilityOutcome where
  | article (title textContent : Option String)
  | failed (docTitle : Option String)
deriving DecidableEq

/-- The external world of one `fetch` call: an HTTP response (with
`response.ok`, status, final URL and the extraction outcome on its
body), an abort by the 30 s timeout, or a thrown transport error. -/
inductive HttpOutcome where
  | response (ok : Bool) (status : Nat) (statusText finalUrl : String)
      (readability : ReadabilityOutcome)
  | abortTimeout
  | transportError (message : String)
deriving DecidableEq

/-- Embeds `fetchAndExtract` as a function of the URL and the outcome of
the HTTP call: non-ok responses yield an `HTTP <status>` error, a parsed
article yields its text with no error, a failed extraction yields the
fallback title, no text and the fixed error string, and timeout or
transport errors yield their message with no text. -/
def fetchAndExtract (url : String) (outcome : HttpOutcome) : FetchResult :=
  match outcome with
  | .response ok status statusText finalUrl rd =>
    if ok = false then
      ⟨finalUrl, none, none, some ("HTTP " ++ toString status ++ ": " ++ statusText)⟩
    else
      match rd with
      | .article title textContent => ⟨finalUrl, title, textContent, none⟩
      | .failed docTitle => ⟨finalUrl, docTitle, none, some "Readability could not parse article"⟩
  | .abortTimeout => ⟨url, none, none, some "Timeout"⟩
  | .transportError message => ⟨url, none, none, some message⟩

/-- An event row the fetcher appends to `lifestream.events`: a
`content.fetched` fact or a `work.failed` fact. -/
inductive FetcherEmission where
  | contentFetched (subjectId finalUrl : String) (title textContent fetchError : Option String)
      (correlationId : String)
  | workFailed (subjectId : String) (work : WorkMessage) (error agent correlationId : String)
deriving DecidableEq

/-- Embeds the fetcher's `handleMessage` after JSON parsing, as a
function of the HTTP outcome: a falsy `url` is skipped; a result with a
truthy error and falsy text emits `work.failed`; every other result
emits `content.fetched` carrying the result's fields. -/
def fetcherHandleMessage (w : WorkMessage) (outcome : HttpOutcome) : List FetcherEmission :=
  if jsTruthy w.payload.url = false then []
  else
    let result := fetchAndExtract (w.payload.url.getD "") outcome
    if jsTruthy result.error && !jsTruthy result.textContent then
      [.workFailed w.subject_id w (result.error.getD "") "fetcher" w.correlation_id]
    else
      [.contentFetched w.subject_id result.finalUrl result.title result.textContent
        result.error w.correlation_id]

/-- Row of `lifestream.events` as the outbox forwarder reads it;
`received_at` is the ledger timestamp (modelled as `Nat` for its
ordering) and `published_to_kafka` is the forwarded flag. -/
structure OutboxEventRow where
  id : String
  subject_id : String
  event_type : String
  source : String
  received_at : Nat
  published_to_kafka : Bool
deriving DecidableEq

/-- The `ORDER BY received_at ASC` relation of the forwarder's query. -/
def recvRel (x y : OutboxEventRow) : Prop := x.received_at ≤ y.received_at

instance : DecidableRel recvRel := fun x y => Nat.decLe x.received_at y.received_at

/-- Embeds the forwarder's batch query `SELECT * FROM lifestream.events
WHERE published_to_kafka = false ORDER BY received_at ASC LIMIT 50`: the
unforwarded rows, stably sorted by `received_at` alone (the query names
no further sort key, so rows tied on `received_at` keep table order),
truncated to 50. -/
def readUnforwarded (events : List OutboxEventRow) : List OutboxEventRow :=
  (List.insertionSort recvRel (events.filter (fun e => !e.published_to_kafka))).take 50

/-!
Concrete fixtures used by the closed theorems below: an empty database,
link rows in various statuses, and sample events and work messages.
-/

def dbEmpty : DbState := ⟨[], [], [], [], [], [], []⟩

def evLinkAdded1 : LifestreamEvent :=
  ⟨"e1", "t1", "t1", "chrome", "link", "link:s", "link.added",
    { payload0 with url := some "https://example.com/a", url_norm := some "https://example.com/a" },
    none, none⟩

def linkRowFetched : LinkRow :=
  ⟨"link:s", "https://example.com/a", "https://example.com/a", "t0", "chrome", "fetched",
    "public", false, 0, none, none⟩

def linkRowNew : LinkRow := { linkRowFetched with status := "new" }

def dbFetched : DbState := ⟨[], [linkRowFetched], [], [], [], [], []⟩

def dbNew : DbState := ⟨[], [linkRowNew], [], [], [], [], []⟩

def evPublish1 : LifestreamEvent :=
  ⟨"e2", "t2", "t2", "agent:publisher", "link", "link:s", "publish.completed", payload0,
    some "c1", none⟩

def evEnrich1 : LifestreamEvent :=
  ⟨"e3", "t3", "t3", "agent:enricher", "link", "link:s", "enrichment.completed",
    { payload0 with tags := some ["x", "y"] }, some "c1", none⟩

def subjRow1 : SubjectRow := ⟨"link", "link:s", "t0", none, "public", "\x7b\x7d"⟩

def dbVis : DbState := ⟨[subjRow1], [linkRowFetched], [], [], [], [], []⟩

def evVis1 : LifestreamEvent :=
  ⟨"e4", "t4", "t4", "admin:set-visibility", "link", "link:s", "link.visibility_changed",
    { payload0 with visibility := some "private" }, none, none⟩

def wmFetch1 : WorkMessage :=
  ⟨"link:s", .fetch_link, "c1", "e1", 1, 3, "t0", none,
    ⟨some "https://example.com/a", none, none⟩⟩

def evWorkFailed1 : LifestreamEvent :=
  ⟨"e5", "t5", "t5", "agent:fetcher", "link", "link:s", "work.failed",
    { payload0 with work_message := some wmFetch1, error := some "boom", agent := some "fetcher" },
    some "c1", none⟩

def evLinkAddedNoCorr : LifestreamEvent :=
  ⟨"e6", "t6", "t6", "phone", "link", "link:s", "link.added",
    { payload0 with url := some "https://example.com/a" }, none, none⟩

def outboxRowB : OutboxEventRow := ⟨"b", "link:s1", "link.added", "chrome", 5, false⟩

def outboxRowA : OutboxEventRow := ⟨"a", "link:s2", "link.added", "phone", 5, false⟩

instance : IsTotal OutboxEventRow recvRel :=
  ⟨fun a b => Nat.le_total a.received_at b.received_at⟩

instance : IsTrans OutboxEventRow recvRel :=
  ⟨fun _ _ _ hab hbc => Nat.le_trans hab hbc⟩

/-- A database operation that leaves the idempotency ledger and the
consumer-progress table untouched — the property of every projection
write, in contrast to the two statements of `recordProcessed`. -/
def preservesLedger (f : DbState → DbState) : Prop :=
  ∀ d, (f d).dedupe = d.dedupe ∧ (f d).kafka_offsets = d.kafka_offsets

/-- Inputs on which one pass of `normalizeUrl` reaches a fixed point:
parse failures, parses whose serialization triggers no trailing-slash
slice, and parses where the slice removes the final character of a
non-root path leaving no further trailing slash.  Outside this set the
slice either eats a query character or leaves another trailing slash,
the situation of the double-slash counterexample. -/
def normStable (cs : List Char) : Bool :=
  match parseUrl cs with
  | none => true
  | some p =>
    if trimCond p.path (serializeUrl (normParsed p)) then
      normQuery p == [] &&
        (p.path.dropLast == ['/'] || !(p.path.dropLast.getLast? == some '/'))
    else true

/-- Well-formedness of parsed-URL components, as established by a
successful `parseUrl`: it makes serialization invert parsing.  The
fragment is unconstrained here; normalization always erases it. -/
def UrlInv0 (p : ParsedUrl) : Prop :=
  p.scheme ≠ [] ∧ (∀ c ∈ p.scheme, isSchemeChar c = true) ∧
  p.host ≠ [] ∧ (∀ c ∈ p.host, isAuthChar c = true ∧ c ≠ ':' ∧ c ≠ '#') ∧
  p.port.all isDigitChar = true ∧
  p.path.head? = some '/' ∧ (∀ c ∈ p.path, c ≠ '?' ∧ c ≠ '#') ∧
  (∀ c ∈ p.query, c ≠ '#')

instance : IsTotal (List Char × List Char) pairRel := by
  constructor
  intro a b
  unfold pairRel
  suffices h : ∀ x y : List Char, listLe x y = true ∨ listLe y x = true from
    h (pairKey a) (pairKey b)
  intro x
  induction x with
  | nil => intro y; exact Or.inl rfl
  | cons c cs ih =>
    intro y
    cases y with
    | nil => exact Or.inr rfl
    | cons d ds =>
      rcases Nat.lt_trichotomy c.toNat d.toNat with h | h | h
      · exact Or.inl (by simp [listLe, h])
      · have h2 : ¬ c.toNat < d.toNat := by omega
        have h3 : ¬ d.toNat < c.toNat := by omega
        rcases ih ds with h4 | h4
        · exact Or.inl (by simp [listLe, h2, h3, h4])
        · exact Or.inr (by simp [listLe, h2, h3, h4])
      · exact Or.inr (by simp [listLe, h])

instance : IsTrans (List Char × List Char) pairRel := by
  constructor
  intro a b c
  unfold pairRel
  suffices h : ∀ x y z : List Char,
      listLe x y = true → listLe y z = true → listLe x z = true from
    h (pairKey a) (pairKey b) (pairKey c)
  intro x
  induction x with
  | nil => intro y z _ _; rfl
  | cons cx xs ih =>
    intro y z hxy hyz
    cases y with
    | nil => simp [listLe] at hxy
    | cons cy ys =>
      cases z with
      | nil => simp [listLe] at hyz
      | cons cz zs =>
        have hinv : ∀ (a b : Char) (as bs : List Char), listLe (a :: as) (b :: bs) = true →
            a.toNat < b.toNat ∨ (a.toNat = b.toNat ∧ listLe as bs = true) := by
          intro a b as bs h
          by_cases h1 : a.toNat < b.toNat
          · exact Or.inl h1
          · by_cases h2 : b.toNat < a.toNat
            · simp [listLe, h1, h2] at h
            · exact Or.inr ⟨by omega, by simpa [listLe, h1, h2] using h⟩
        rcases hinv _ _ _ _ hxy with h1 | ⟨h1, h1t⟩ <;>
          rcases hinv _ _ _ _ hyz with h2 | ⟨h2, h2t⟩
        · simp [listLe, Nat.lt_trans h1 h2]
        · simp [listLe, h2 ▸ h1]
        · simp [listLe, h1 ▸ h2]
        · have h3 : ¬ cx.toNat < cz.toNat := by omega
          have h4 : ¬ cz.toNat < cx.toNat := by omega
          simp [listLe, h3, h4, ih ys zs h1t h2t]

/-- C1 (counterexample): materializer processing of one bus message is
not one database transaction.  For a `link.added` message on the empty
database, stopping after the two projection statements (the subject and
link inserts) but before `recordProcessed` leaves a state in which the
link row persists while the idempotency ledger and consumer progress do
not — neither "all persist" nor "none persist". -/
theorem c1_counterexample_partial_state :
    (applyStmts dbEmpty ((handleMessageStmts evLinkAdded1 "events.raw" 0 0 "n1").take 2)).links.length = 1 ∧
    (applyStmts dbEmpty ((handleMessageStmts evLinkAdded1 "events.raw" 0 0 "n1").take 2)).dedupe = [] ∧
    (applyStmts dbEmpty ((handleMessageStmts evLinkAdded1 "events.raw" 0 0 "n1").take 2)).kafka_offsets = [] ∧
    (applyStmts dbEmpty (handleMessageStmts evLinkAdded1 "events.raw" 0 0 "n1")).dedupe = [⟨"events.raw", 0, 0⟩] ∧
    applyStmts dbEmpty ((handleMessageStmts evLinkAdded1 "events.raw" 0 0 "n1").take 2) ≠ dbEmpty ∧
    applyStmts dbEmpty ((handleMessageStmts evLinkAdded1 "events.raw" 0 0 "n1").take 2) ≠
      applyStmts dbEmpty (handleMessageStmts evLinkAdded1 "events.raw" 0 0 "n1") := by
  refine ⟨by decide, by decide, by decide, by decide, by decide, by decide⟩

/-- C2: evaluation of the URL normalizer and the link subject id at the
spec's scenario input.  The normalizer keeps the trailing slash of the
non-root path because `endsWith("/")` inspects the serialized URL, whose
last character belongs to the query string — contradicting the
function's own comment "Remove trailing slashes (except root)" — so both
the normalized URL and the subject id differ from the claimed values. -/
theorem c2_code_at_failing_input :
    normalizeUrl "HTTPS://Example.com/a/?b=2&a=1#f" = "https://example.com/a/?a=1&b=2" ∧
    linkSubjectId "HTTPS://Example.com/a/?b=2&a=1#f" = "link:46993a54ad169693" ∧
    normalizeUrl "HTTPS://Example.com/a/?b=2&a=1#f" ≠ "https://example.com/a?a=1&b=2" ∧
    linkSubjectId "HTTPS://Example.com/a/?b=2&a=1#f" ≠
      "link:" ++ sha256Short "https://example.com/a?a=1&b=2" := by
  refine ⟨by decide, by decide, by decide, by decide⟩

/-- C3: the projected link status does not follow the claimed state
machine.  A `publish.completed` event moves a link whose status is
`fetched` directly to `published` (the status `UPDATE` has no guard),
and an `enrichment.completed` event moves a link from `new` directly to
`enriched` (the guard admits `new`), the two transitions the claim says
never occur. -/
theorem c3_code_at_failing_input :
    (applyStmts dbFetched (processEventStmts evPublish1 "n1")).links =
      [{ linkRowFetched with status := "published" }] ∧
    (applyStmts dbNew (processEventStmts evEnrich1 "n1")).links =
      [{ linkRowNew with status := "enriched" }] := by
  refine ⟨by decide, by decide⟩

/-- C6: a valid HTTP response whose body Readability cannot parse makes
the fetcher emit `work.failed` (the guard `result.error &&
!result.textContent` also captures extraction failures), not the
`content.fetched`-with-`fetch_error` event the claim describes. -/
theorem c6_code_at_failing_input :
    fetcherHandleMessage wmFetch1
        (.response true 200 "OK" "https://example.com/a" (.failed (some "T"))) =
      [.workFailed "link:s" wmFetch1 "Readability could not parse article" "fetcher" "c1"] := by
  decide

/-- C7: the materializer's `processEvent` has no case for
`link.visibility_changed`, so the event falls to the default branch and
changes nothing: the full message processing leaves the link row and the
subject row (and their visibility) untouched, recording only the offset
as processed. -/
theorem c7_code_at_failing_input :
    applyStmts dbVis (processEventStmts evVis1 "n1") = dbVis ∧
    (materializerHandleMessage dbVis evVis1 "events.raw" 0 5 "n1").links = dbVis.links ∧
    (materializerHandleMessage dbVis evVis1 "events.raw" 0 5 "n1").subjects = dbVis.subjects := by
  refine ⟨by decide, by decide, by decide⟩

/-- C8 (counterexample): the forwarder's query orders by `received_at`
alone, so two unforwarded rows tied on `received_at` come back in table
order — here the row with the larger `id` first — not tie-broken by
`event_id` as the claim states. -/
theorem c8_counterexample_tie_order :
    readUnforwarded [outboxRowB, outboxRowA] = [outboxRowB, outboxRowA] ∧
    outboxRowB.received_at = outboxRowA.received_at ∧
    listLe outboxRowB.id.data outboxRowA.id.data = false := by
  refine ⟨by decide, by decide, by decide⟩

/-- C9 (counterexample): `normalizeUrl` removes only one trailing slash
per application, so it is not idempotent and the subject id of a URL can
differ from the subject id of its normalized form:
`normalizeUrl "https://example.com/a//" = "https://example.com/a/"`,
which normalizes further to `"https://example.com/a"`. -/
theorem c9_counterexample_double_slash :
    normalizeUrl "https://example.com/a//" = "https://example.com/a/" ∧
    normalizeUrl (normalizeUrl "https://example.com/a//") = "https://example.com/a" ∧
    linkSubjectId "https://example.com/a//" ≠
      linkSubjectId (normalizeUrl "https://example.com/a//") := by
  refine ⟨by decide, by decide, by decide⟩

/-- C5: with `recorded` the highest ledger offset for the events topic
partition and `desired = recorded + 1` (or 0 when none), the chosen
start offset is `earliest` when `desired < earliest`; when
`desired > latest` (the bus was recreated) the ledger rows of the events
topic are deleted and the chosen start offset is `earliest`; otherwise
it is `desired`. -/
theorem c5_startup_offset_reconciliation (dedupe : List DedupeRow) (earliest latest : Nat)
    (hrange : earliest ≤ latest) :
    (desiredOffset dedupe < earliest →
      calculateTargetOffset dedupe earliest latest = (earliest, dedupe)) ∧
    (latest < desiredOffset dedupe →
      calculateTargetOffset dedupe earliest latest =
        (earliest, dedupe.filter (fun r => !(r.topic == EVENTS_TOPIC)))) ∧
    (earliest ≤ desiredOffset dedupe → desiredOffset dedupe ≤ latest →
      calculateTargetOffset dedupe earliest latest = (desiredOffset dedupe, dedupe)) := by
  unfold calculateTargetOffset
  refine ⟨fun h1 => ?_, fun h2 => ?_, fun h3 h4 => ?_⟩
  · simp [h1]
  · have h5 : ¬ desiredOffset dedupe < earliest := by omega
    simp [h5, h2]
  · have h5 : ¬ desiredOffset dedupe < earliest := by omega
    have h6 : ¬ latest < desiredOffset dedupe := by omega
    simp [h5, h6]

/-- C5 witness: a ledger recording offset 41 for the events topic inside
the range `[10, 100]` makes the materializer start at 42 and keep the
ledger. -/
theorem c5_witness :
    calculateTargetOffset [⟨"events.raw", 0, 41⟩] 10 100 = (42, [⟨"events.raw", 0, 41⟩]) := by
  have h := (c5_startup_offset_reconciliation [⟨"events.raw", 0, 41⟩] 10 100 (by decide)).2.2
    (by decide) (by decide)
  exact h.trans (by decide)

/-- C4: on a `work.failed` event carrying work message `w`, error `e`
and agent `ag`, the router emits, when `attempt < max_attempts`, exactly
one retry work command to `w`'s work topic equal to `w` except for
`attempt + 1`, a fresh `created_at` and `last_error = e`; otherwise
exactly one dead-letter record `{original_work, final_error, failed_at,
agent}` on the DLQ topic and no retry. -/
theorem c4_retry_or_dead_letter (ev : LifestreamEvent) (db : DbState) (w : WorkMessage)
    (e ag now : String) (htype : ev.event_type = "work.failed")
    (hw : ev.payload.work_message = some w) (he : ev.payload.error = some e)
    (ha : ev.payload.agent = some ag) :
    routerProcessEvent ev db now =
      if w.attempt < w.max_attempts then
        [RouterEmission.work (WORK_TYPE_TO_TOPIC w.work_type) w.subject_id
          { w with attempt := w.attempt + 1, created_at := now, last_error := some e }]
      else
        [RouterEmission.dead DEAD_LETTER_TOPIC w.subject_id ⟨w, e, now, ag⟩] := by
  simp only [routerProcessEvent, htype]
  simp only [routerHandleWorkFailed, hw, he, ha, shouldRetry, emitWorkMessage,
    createRetryWorkMessage, emitToDeadLetter, createDeadLetterMessage, Option.getD_some]
  by_cases hlt : w.attempt < w.max_attempts
  · simp [hlt]
  · simp [hlt]

/-- C4 witness: a failed fetch at attempt 1 of 3 is retried as attempt 2
with the error recorded. -/
theorem c4_witness :
    routerProcessEvent evWorkFailed1 dbEmpty "t9" =
      [RouterEmission.work "work.fetch_link" "link:s"
        { wmFetch1 with attempt := 2, created_at := "t9", last_error := some "boom" }] := by
  have h := c4_retry_or_dead_letter evWorkFailed1 dbEmpty wmFetch1 "boom" "fetcher" "t9"
    rfl rfl rfl rfl
  exact h.trans (by decide)

/-- C10: every work command the router emits for a `link.added`,
`content.fetched` or `enrichment.completed` trigger has
`triggered_by_event_id` equal to the triggering event's id and
`correlation_id` equal to the event's `correlation_id` when present and
to the event's id otherwise (so, as `ev.id` is a string, never null). -/
theorem c10_work_command_provenance (ev : LifestreamEvent) (db : DbState) (now topic key : String)
    (w : WorkMessage)
    (htype : ev.event_type = "link.added" ∨ ev.event_type = "content.fetched" ∨
      ev.event_type = "enrichment.completed")
    (hmem : RouterEmission.work topic key w ∈ routerProcessEvent ev db now) :
    w.triggered_by_event_id = ev.id ∧ w.correlation_id = ev.correlation_id.getD ev.id := by
  rcases htype with h | h | h <;>
    simp only [routerProcessEvent, h] at hmem
  · unfold routerHandleLinkAdded at hmem
    split at hmem
    · simp at hmem
    · split at hmem
      · simp at hmem
      · rw [List.mem_singleton] at hmem
        simp only [emitWorkMessage, createWorkMessage] at hmem
        injection hmem with h1 h2 h3
        subst h3
        exact ⟨rfl, rfl⟩
  · unfold routerHandleContentFetched at hmem
    split at hmem
    · simp at hmem
    · split at hmem
      · simp at hmem
      · split at hmem
        · simp at hmem
        · rw [List.mem_singleton] at hmem
          simp only [emitWorkMessage, createWorkMessage] at hmem
          injection hmem with h1 h2 h3
          subst h3
          exact ⟨rfl, rfl⟩
  · unfold routerHandleEnrichmentCompleted at hmem
    split at hmem
    · simp at hmem
    · rw [List.mem_singleton] at hmem
      simp only [emitWorkMessage, createWorkMessage] at hmem
      injection hmem with h1 h2 h3
      subst h3
      exact ⟨rfl, rfl⟩

/-- C10 witness: the fetch work command emitted for a `link.added` event
with no `correlation_id` carries the event's id in both fields. -/
theorem c10_witness :
    (createWorkMessage .fetch_link "link:s" "e6" "e6"
        ⟨some "https://example.com/a", none, none⟩ none none "t9").triggered_by_event_id =
      evLinkAddedNoCorr.id ∧
    (createWorkMessage .fetch_link "link:s" "e6" "e6"
        ⟨some "https://example.com/a", none, none⟩ none none "t9").correlation_id =
      evLinkAddedNoCorr.correlation_id.getD evLinkAddedNoCorr.id := by
  exact c10_work_command_provenance evLinkAddedNoCorr dbEmpty "t9" "work.fetch_link" "link:s"
    (createWorkMessage .fetch_link "link:s" "e6" "e6"
      ⟨some "https://example.com/a", none, none⟩ none none "t9")
    (Or.inl rfl) (by decide)

theorem preserves_stmtInsertSubject (a b c d e : String) :
    preservesLedger (stmtInsertSubject a b c d e) := fun db => by
  unfold stmtInsertSubject
  split <;> exact ⟨rfl, rfl⟩

theorem preserves_stmtInsertLink (a b c d e : String) :
    preservesLedger (stmtInsertLink a b c d e) := fun db => by
  unfold stmtInsertLink
  split <;> exact ⟨rfl, rfl⟩

theorem preserves_stmtUpsertLinkContent (sid : String) (a b c d e : Option String) (f : String) :
    preservesLedger (stmtUpsertLinkContent sid a b c d e f) := fun db => by
  unfold stmtUpsertLinkContent
  split <;> exact ⟨rfl, rfl⟩

theorem preserves_stmtLinksSetError (a b c : String) :
    preservesLedger (stmtLinksSetError a b c) := fun _ => ⟨rfl, rfl⟩

theorem preserves_stmtLinksSetFetched (a : String) :
    preservesLedger (stmtLinksSetFetched a) := fun _ => ⟨rfl, rfl⟩

theorem preserves_stmtUpsertLinkMetadata (sid : String) (tags : List String)
    (a b c d : Option String) :
    preservesLedger (stmtUpsertLinkMetadata sid tags a b c d) := fun db => by
  unfold stmtUpsertLinkMetadata
  split <;> exact ⟨rfl, rfl⟩

theorem preserves_stmtLinksSetEnriched (a : String) :
    preservesLedger (stmtLinksSetEnriched a) := fun _ => ⟨rfl, rfl⟩

theorem preserves_stmtBumpPublishState (a : String) :
    preservesLedger (stmtBumpPublishState a) := fun db => by
  unfold stmtBumpPublishState
  split <;> exact ⟨rfl, rfl⟩

theorem preserves_stmtPublishStateComplete (a b : String) :
    preservesLedger (stmtPublishStateComplete a b) := fun _ => ⟨rfl, rfl⟩

theorem preserves_stmtLinksSetPublished (a : String) :
    preservesLedger (stmtLinksSetPublished a) := fun _ => ⟨rfl, rfl⟩

/-- Every statement of the materializer's `processEvent` dispatch is a
projection write: none touches the idempotency ledger or the
consumer-progress table. -/
theorem processEventStmts_preserves (ev : LifestreamEvent) (now : String) :
    ∀ f ∈ processEventStmts ev now, preservesLedger f := by
  intro f hf
  unfold processEventStmts at hf
  split at hf
  · unfold handleLinkAddedStmts at hf
    split at hf
    · simp at hf
    · simp only [List.mem_cons, List.not_mem_nil, or_false] at hf
      rcases hf with rfl | rfl
      · exact preserves_stmtInsertSubject _ _ _ _ _
      · exact preserves_stmtInsertLink _ _ _ _ _
  · unfold handleContentFetchedStmts at hf
    simp only [List.mem_cons] at hf
    rcases hf with rfl | hf2
    · exact preserves_stmtUpsertLinkContent _ _ _ _ _ _ _
    · split at hf2
      · simp only [List.mem_singleton] at hf2
        subst hf2
        exact preserves_stmtLinksSetError _ _ _
      · simp only [List.mem_singleton] at hf2
        subst hf2
        exact preserves_stmtLinksSetFetched _
  · unfold handleEnrichmentCompletedStmts at hf
    simp only [List.mem_cons, List.not_mem_nil, or_false] at hf
    rcases hf with rfl | rfl | rfl
    · exact preserves_stmtUpsertLinkMetadata _ _ _ _ _ _
    · exact preserves_stmtLinksSetEnriched _
    · exact preserves_stmtBumpPublishState _
  · unfold handlePublishCompletedStmts at hf
    simp only [List.mem_cons, List.not_mem_nil, or_false] at hf
    rcases hf with rfl | rfl
    · exact preserves_stmtPublishStateComplete _ _
    · exact preserves_stmtLinksSetPublished _
  · simp at hf

/-- Running statements that all preserve the ledger preserves the
ledger. -/
theorem applyStmts_ledger (stmts : List (DbState → DbState))
    (h : ∀ f ∈ stmts, preservesLedger f) (db : DbState) :
    (applyStmts db stmts).dedupe = db.dedupe ∧
    (applyStmts db stmts).kafka_offsets = db.kafka_offsets := by
  induction stmts generalizing db with
  | nil => exact ⟨rfl, rfl⟩
  | cons f rest ih =>
    have hf := h f (List.mem_cons_self _ _)
    have hrest := ih (fun g hg => h g (List.mem_cons_of_mem _ hg)) (f db)
    have hstep : applyStmts db (f :: rest) = applyStmts (f db) rest := rfl
    rw [hstep]
    exact ⟨hrest.1.trans (hf db).1, hrest.2.trans (hf db).2⟩

/-- The ledger insert records its own `(topic, partition, offset)` row
(or finds it already present). -/
theorem mem_dedupe_insert (t : String) (p o : Nat) (d : DbState) :
    (⟨t, p, o⟩ : DedupeRow) ∈ (stmtInsertDedupe t p o d).dedupe := by
  unfold stmtInsertDedupe
  split
  · rename_i h
    rw [List.any_eq_true] at h
    obtain ⟨r, hr, hp⟩ := h
    obtain ⟨rt, rp, ro⟩ := r
    simp only [Bool.and_eq_true, beq_iff_eq] at hp
    obtain ⟨⟨h1, h2⟩, h3⟩ := hp
    subst h1; subst h2; subst h3
    exact hr
  · simp

theorem stmtUpsertOffset_dedupe (g t : String) (p o : Nat) (d : DbState) :
    (stmtUpsertOffset g t p o d).dedupe = d.dedupe := by
  unfold stmtUpsertOffset
  split <;> rfl

/-- C1 (amended): per message, the materializer issues the projection
writes first and the idempotency-ledger insert and progress upsert last,
each as its own auto-committed statement rather than one transaction: a
crash anywhere inside the projection writes leaves ledger and progress
untouched (so the message is reprocessed and the idempotent projections
absorb the replay), and a completed run always records the message's
`(topic, partition, offset)` in the ledger. -/
theorem c1_amended_statement_order (ev : LifestreamEvent) (topic : String)
    (partition offset : Nat) (now : String) (db : DbState) (k : Nat)
    (hk : k ≤ (processEventStmts ev now).length) :
    (applyStmts db ((handleMessageStmts ev topic partition offset now).take k)).dedupe =
      db.dedupe ∧
    (applyStmts db ((handleMessageStmts ev topic partition offset now).take k)).kafka_offsets =
      db.kafka_offsets ∧
    (⟨topic, partition, offset⟩ : DedupeRow) ∈
      (applyStmts db (handleMessageStmts ev topic partition offset now)).dedupe := by
  have htake : (handleMessageStmts ev topic partition offset now).take k =
      (processEventStmts ev now).take k := by
    unfold handleMessageStmts
    exact List.take_append_of_le_length hk
  rw [htake]
  have hpre : ∀ f ∈ (processEventStmts ev now).take k, preservesLedger f := fun f hf =>
    processEventStmts_preserves ev now f (List.mem_of_mem_take hf)
  have h1 := applyStmts_ledger _ hpre db
  refine ⟨h1.1, h1.2, ?_⟩
  have happ : applyStmts db (handleMessageStmts ev topic partition offset now) =
      stmtUpsertOffset MAT_CONSUMER_GROUP topic partition offset
        (stmtInsertDedupe topic partition offset (applyStmts db (processEventStmts ev now))) := by
    unfold handleMessageStmts recordProcessedStmts applyStmts
    rw [List.foldl_append]
    rfl
  rw [happ, stmtUpsertOffset_dedupe]
  exact mem_dedupe_insert topic partition offset _

/-- C1 (amended) witness: the statement-order theorem at the
`link.added` fixture, with the crash point after the two projection
writes. -/
theorem c1_amended_witness :
    2 ≤ (processEventStmts evLinkAdded1 "n1").length ∧
    ((applyStmts dbEmpty ((handleMessageStmts evLinkAdded1 "events.raw" 0 0 "n1").take 2)).dedupe =
        dbEmpty.dedupe ∧
      (applyStmts dbEmpty
          ((handleMessageStmts evLinkAdded1 "events.raw" 0 0 "n1").take 2)).kafka_offsets =
        dbEmpty.kafka_offsets ∧
      (⟨"events.raw", 0, 0⟩ : DedupeRow) ∈
        (applyStmts dbEmpty (handleMessageStmts evLinkAdded1 "events.raw" 0 0 "n1")).dedupe) :=
  ⟨by decide, c1_amended_statement_order evLinkAdded1 "events.raw" 0 0 "n1" dbEmpty 2 (by decide)⟩

/-- C8 (amended): the forwarder's batch read returns at most 50 events,
all unforwarded, ordered by `received_at` ascending; rows tied on
`received_at` keep their table order (the query has no secondary sort
key). -/
theorem c8_amended_read_unforwarded (events : List OutboxEventRow) :
    (readUnforwarded events).length ≤ 50 ∧
    (∀ e ∈ readUnforwarded events, e.published_to_kafka = false) ∧
    List.Pairwise recvRel (readUnforwarded events) := by
  unfold readUnforwarded
  refine ⟨List.length_take_le _ _, fun e he => ?_, ?_⟩
  · have h1 := List.mem_of_mem_take he
    have h2 := (List.perm_insertionSort recvRel _).mem_iff.mp h1
    have h3 := List.of_mem_filter h2
    simpa using h3
  · exact List.Pairwise.take (List.sorted_insertionSort recvRel _)

/-- C8 (amended) witness: the amended read contract at the two-row tied
fixture. -/
theorem c8_amended_witness :
    (readUnforwarded [outboxRowB, outboxRowA]).length ≤ 50 ∧
    (∀ e ∈ readUnforwarded [outboxRowB, outboxRowA], e.published_to_kafka = false) ∧
    List.Pairwise recvRel (readUnforwarded [outboxRowB, outboxRowA]) :=
  c8_amended_read_unforwarded [outboxRowB, outboxRowA]

theorem ne_of_toNat_ne {a b : Char} (h : a.toNat ≠ b.toNat) : a ≠ b :=
  fun e => h (by rw [e])

theorem lowerChar_toNat_upper {c : Char} (h1 : 65 ≤ c.toNat) (h2 : c.toNat ≤ 90) :
    (lowerChar c).toNat = c.toNat + 32 := by
  unfold lowerChar
  rw [if_pos ⟨h1, h2⟩]
  unfold Char.ofNat
  split
  · rfl
  · rename_i h
    exact absurd (Or.inl (by omega)) h

theorem lowerChar_eq_of_not_upper {c : Char} (h : ¬(65 ≤ c.toNat ∧ c.toNat ≤ 90)) :
    lowerChar c = c := if_neg h

theorem lowerChar_idem (c : Char) : lowerChar (lowerChar c) = lowerChar c := by
  by_cases h : 65 ≤ c.toNat ∧ c.toNat ≤ 90
  · have h1 := lowerChar_toNat_upper h.1 h.2
    exact lowerChar_eq_of_not_upper (by omega)
  · rw [lowerChar_eq_of_not_upper h, lowerChar_eq_of_not_upper h]

theorem lowerChar_ne_low {c d : Char} (hcd : c ≠ d) (hd : d.toNat < 65) : lowerChar c ≠ d := by
  by_cases h : 65 ≤ c.toNat ∧ c.toNat ≤ 90
  · have h1 := lowerChar_toNat_upper h.1 h.2
    exact ne_of_toNat_ne (by omega)
  · rw [lowerChar_eq_of_not_upper h]
    exact hcd

theorem isSchemeChar_lowerChar {c : Char} (h : isSchemeChar c = true) :
    isSchemeChar (lowerChar c) = true := by
  by_cases hu : 65 ≤ c.toNat ∧ c.toNat ≤ 90
  · have h1 := lowerChar_toNat_upper hu.1 hu.2
    unfold isSchemeChar
    simp only [Bool.or_eq_true, Bool.and_eq_true, decide_eq_true_eq]
    exact Or.inl (Or.inl (Or.inl (Or.inl (Or.inr ⟨by omega, by omega⟩))))
  · rw [lowerChar_eq_of_not_upper hu]
    exact h

theorem takeWhile_append_left {α} (p : α → Bool) (xs rest : List α)
    (h : ∀ x ∈ xs, p x = true) :
    (xs ++ rest).takeWhile p = xs ++ rest.takeWhile p := by
  induction xs with
  | nil => rfl
  | cons a xs ih =>
    have ha := h a (List.mem_cons_self _ _)
    rw [List.cons_append, List.takeWhile_cons_of_pos ha,
      ih (fun x hx => h x (List.mem_cons_of_mem _ hx))]
    rfl

theorem takeWhile_eq_self {α} (p : α → Bool) (xs : List α) (h : ∀ x ∈ xs, p x = true) :
    xs.takeWhile p = xs := by
  have h2 := takeWhile_append_left p xs [] h
  simpa using h2

theorem takeWhile_append_stop {α} (p : α → Bool) (xs : List α) (y : α) (ys : List α)
    (h : ∀ x ∈ xs, p x = true) (hy : p y = false) :
    (xs ++ y :: ys).takeWhile p = xs := by
  rw [takeWhile_append_left p xs _ h, List.takeWhile_cons_of_neg (by simp [hy])]
  simp

theorem head_dropWhile_false {α} (p : α → Bool) (l : List α) :
    ∀ c, (l.dropWhile p).head? = some c → p c = false := by
  induction l with
  | nil =>
    intro c h
    simp [List.dropWhile] at h
  | cons a l ih =>
    intro c h
    by_cases ha : p a
    · rw [List.dropWhile_cons_of_pos ha] at h
      exact ih c h
    · rw [List.dropWhile_cons_of_neg ha] at h
      simp only [List.head?_cons, Option.some.injEq] at h
      subst h
      exact eq_false_of_ne_true ha

theorem drop_length_takeWhile {α} (p : α → Bool) (l : List α) :
    l.drop (l.takeWhile p).length = l.dropWhile p := by
  have h := List.takeWhile_append_dropWhile p l
  calc l.drop (l.takeWhile p).length
      = (l.takeWhile p ++ l.dropWhile p).drop (l.takeWhile p).length := by rw [h]
    _ = l.dropWhile p := List.drop_left _ _

theorem splitOnChar_nil (sep : Char) : splitOnChar sep [] = [[]] := rfl

theorem splitOnChar_cons (sep c : Char) (l : List Char) :
    splitOnChar sep (c :: l) =
      match splitOnChar sep l with
      | [] => [[c]]
      | cur :: rest => if c = sep then [] :: cur :: rest else (c :: cur) :: rest := rfl

theorem splitOnChar_ne_nil (sep : Char) (l : List Char) : splitOnChar sep l ≠ [] := by
  induction l with
  | nil => simp [splitOnChar_nil]
  | cons c l ih =>
    cases h : splitOnChar sep l with
    | nil => exact absurd h ih
    | cons cur rest =>
      have hs : splitOnChar sep (c :: l) =
          if c = sep then [] :: cur :: rest else (c :: cur) :: rest := by
        rw [splitOnChar_cons, h]
      rw [hs]
      split <;> simp

theorem splitOnChar_sep_cons (sep : Char) (rest : List Char) :
    splitOnChar sep (sep :: rest) = [] :: splitOnChar sep rest := by
  rw [splitOnChar_cons]
  cases h : splitOnChar sep rest with
  | nil => exact absurd h (splitOnChar_ne_nil sep rest)
  | cons cur r2 => simp

theorem splitOnChar_append_sep (sep : Char) (xs rest : List Char) (h : sep ∉ xs) :
    splitOnChar sep (xs ++ sep :: rest) = xs :: splitOnChar sep rest := by
  induction xs with
  | nil => simpa using splitOnChar_sep_cons sep rest
  | cons x xs ih =>
    have hx : x ≠ sep := fun e => h (e ▸ List.mem_cons_self _ _)
    rw [List.cons_append, splitOnChar_cons, ih (fun hm => h (List.mem_cons_of_mem _ hm))]
    simp [hx]

theorem splitOnChar_no_sep (sep : Char) (xs : List Char) (h : sep ∉ xs) :
    splitOnChar sep xs = [xs] := by
  induction xs with
  | nil => rfl
  | cons x xs ih =>
    have hx : x ≠ sep := fun e => h (e ▸ List.mem_cons_self _ _)
    rw [splitOnChar_cons, ih (fun hm => h (List.mem_cons_of_mem _ hm))]
    simp [hx]

theorem splitOnChar_mem_subset (sep : Char) (l : List Char) :
    ∀ seg ∈ splitOnChar sep l, ∀ c ∈ seg, c ∈ l := by
  induction l with
  | nil =>
    intro seg hseg c hc
    rw [splitOnChar_nil, List.mem_singleton] at hseg
    subst hseg
    simp at hc
  | cons a l ih =>
    intro seg hseg c hc
    cases h : splitOnChar sep l with
    | nil => exact absurd h (splitOnChar_ne_nil sep l)
    | cons cur rest =>
      have hs : splitOnChar sep (a :: l) =
          if a = sep then [] :: cur :: rest else (a :: cur) :: rest := by
        rw [splitOnChar_cons, h]
      rw [hs] at hseg
      by_cases ha : a = sep
      · rw [if_pos ha] at hseg
        rcases List.mem_cons.mp hseg with rfl | hseg2
        · simp at hc
        · exact List.mem_cons_of_mem _ (ih seg (by rw [h]; exact hseg2) c hc)
      · rw [if_neg ha] at hseg
        rcases List.mem_cons.mp hseg with rfl | hseg2
        · rcases List.mem_cons.mp hc with rfl | hc2
          · exact List.mem_cons_self _ _
          · exact List.mem_cons_of_mem _
              (ih cur (by rw [h]; exact List.mem_cons_self _ _) c hc2)
        · exact List.mem_cons_of_mem _
            (ih seg (by rw [h]; exact List.mem_cons_of_mem _ hseg2) c hc)

theorem splitOnChar_sep_not_mem (sep : Char) (l : List Char) :
    ∀ seg ∈ splitOnChar sep l, sep ∉ seg := by
  induction l with
  | nil =>
    intro seg hseg
    rw [splitOnChar_nil, List.mem_singleton] at hseg
    subst hseg
    simp
  | cons a l ih =>
    intro seg hseg
    cases h : splitOnChar sep l with
    | nil => exact absurd h (splitOnChar_ne_nil sep l)
    | cons cur rest =>
      have hs : splitOnChar sep (a :: l) =
          if a = sep then [] :: cur :: rest else (a :: cur) :: rest := by
        rw [splitOnChar_cons, h]
      rw [hs] at hseg
      by_cases ha : a = sep
      · rw [if_pos ha] at hseg
        rcases List.mem_cons.mp hseg with rfl | hseg2
        · simp
        · exact ih seg (by rw [h]; exact hseg2)
      · rw [if_neg ha] at hseg
        rcases List.mem_cons.mp hseg with rfl | hseg2
        · intro hmem
          rcases List.mem_cons.mp hmem with e | hmem2
          · exact ha e.symm
          · exact ih cur (by rw [h]; exact List.mem_cons_self _ _) hmem2
        · exact ih seg (by rw [h]; exact List.mem_cons_of_mem _ hseg2)

theorem eqTail_subset (l : List Char) : ∀ c ∈ eqTail l, c ∈ l := by
  unfold eqTail
  split
  · intro c hc
    exact List.mem_cons_of_mem _ hc
  · intro c hc
    simp at hc

theorem parsePair_encode (k v : List Char) (hk : ∀ c ∈ k, c ≠ '=') :
    parsePair (k ++ '=' :: v) = some (k, v) := by
  unfold parsePair
  have hne : k ++ '=' :: v ≠ [] := by simp
  rw [if_neg hne]
  have htk : (k ++ '=' :: v).takeWhile (fun c => c != '=') = k :=
    takeWhile_append_stop _ k '=' v (fun c hc => by simpa using hk c hc) (by simp)
  simp only [htk, List.drop_left, eqTail]

theorem parsePair_chars {seg : List Char} {p : List Char × List Char}
    (h : parsePair seg = some p) :
    (∀ c, c ∈ p.1 ∨ c ∈ p.2 → c ∈ seg) ∧ '=' ∉ p.1 := by
  unfold parsePair at h
  split at h
  · exact absurd h (by simp)
  · simp only [Option.some.injEq] at h
    subst h
    constructor
    · intro c hc
      rcases hc with hc | hc
      · exact (List.takeWhile_sublist _).subset hc
      · exact List.drop_subset _ _ (eqTail_subset _ c hc)
    · intro hm
      have h2 := List.mem_takeWhile_imp hm
      simp at h2

theorem serializeQuery_single (p : List Char × List Char) :
    serializeQuery [p] = p.1 ++ '=' :: p.2 := rfl

theorem serializeQuery_cons (p q : List Char × List Char)
    (rest : List (List Char × List Char)) :
    serializeQuery (p :: q :: rest) = p.1 ++ '=' :: p.2 ++ '&' :: serializeQuery (q :: rest) := rfl

theorem parseQuery_serializeQuery (l : List (List Char × List Char))
    (h : ∀ p ∈ l, '&' ∉ p.1 ∧ '=' ∉ p.1 ∧ '&' ∉ p.2) :
    parseQuery (serializeQuery l) = l := by
  induction l with
  | nil => rfl
  | cons p rest ih =>
    obtain ⟨h1, h2, h3⟩ := h p (List.mem_cons_self _ _)
    have hnosep : '&' ∉ p.1 ++ '=' :: p.2 := by
      intro hm
      rcases List.mem_append.mp hm with hm | hm
      · exact h1 hm
      · rcases List.mem_cons.mp hm with e | hm2
        · exact absurd e (by decide)
        · exact h3 hm2
    cases rest with
    | nil =>
      rw [serializeQuery_single]
      unfold parseQuery
      rw [splitOnChar_no_sep '&' _ hnosep]
      simp only [List.filterMap_cons, List.filterMap_nil]
      rw [parsePair_encode p.1 p.2 (fun c hc e => h2 (e ▸ hc))]
    | cons q rest2 =>
      rw [serializeQuery_cons]
      have hassoc : p.1 ++ '=' :: p.2 ++ '&' :: serializeQuery (q :: rest2) =
          (p.1 ++ '=' :: p.2) ++ '&' :: serializeQuery (q :: rest2) := by
        simp [List.append_assoc]
      unfold parseQuery
      rw [hassoc, splitOnChar_append_sep '&' _ _ hnosep]
      simp only [List.filterMap_cons]
      rw [parsePair_encode p.1 p.2 (fun c hc e => h2 (e ▸ hc))]
      have hrest := ih (fun r hr => h r (List.mem_cons_of_mem _ hr))
      unfold parseQuery at hrest
      rw [hrest]

theorem sortPairs_mem {l : List (List Char × List Char)} {p : List Char × List Char}
    (h : p ∈ sortPairs l) : p ∈ l :=
  (List.perm_insertionSort pairRel l).mem_iff.mp h

theorem sortPairs_sorted (l : List (List Char × List Char)) :
    List.Sorted pairRel (sortPairs l) :=
  List.sorted_insertionSort pairRel l

theorem sortPairs_idem (l : List (List Char × List Char)) :
    sortPairs (sortPairs l) = sortPairs l :=
  List.Sorted.insertionSort_eq (sortPairs_sorted l)

theorem parseQuery_chars_subset (q : List Char) :
    ∀ p ∈ parseQuery q, ∀ c, (c ∈ p.1 ∨ c ∈ p.2) → c ∈ q := by
  intro p hp c hc
  unfold parseQuery at hp
  rw [List.mem_filterMap] at hp
  obtain ⟨seg, hseg, hpp⟩ := hp
  exact splitOnChar_mem_subset '&' q seg hseg c ((parsePair_chars hpp).1 c hc)

/-- One round of query normalization is idempotent: re-parsing and
re-sorting a sorted serialized query reproduces it. -/
theorem query_norm_idem (q0 : List Char) :
    serializeQuery (sortPairs (parseQuery (serializeQuery (sortPairs (parseQuery q0))))) =
      serializeQuery (sortPairs (parseQuery q0)) := by
  have hinv : ∀ p ∈ sortPairs (parseQuery q0), '&' ∉ p.1 ∧ '=' ∉ p.1 ∧ '&' ∉ p.2 := by
    intro p hp
    have hp2 := sortPairs_mem hp
    unfold parseQuery at hp2
    rw [List.mem_filterMap] at hp2
    obtain ⟨seg, hseg, hpp⟩ := hp2
    have hchars := parsePair_chars hpp
    have hsep := splitOnChar_sep_not_mem '&' q0 seg hseg
    exact ⟨fun hm => hsep (hchars.1 '&' (Or.inl hm)), hchars.2,
      fun hm => hsep (hchars.1 '&' (Or.inr hm))⟩
  rw [parseQuery_serializeQuery _ hinv, sortPairs_idem]

theorem serializeQuery_chars (l : List (List Char × List Char)) :
    ∀ c ∈ serializeQuery l, c = '=' ∨ c = '&' ∨ ∃ p ∈ l, c ∈ p.1 ∨ c ∈ p.2 := by
  induction l with
  | nil =>
    intro c hc
    simp [serializeQuery] at hc
  | cons p rest ih =>
    cases rest with
    | nil =>
      intro c hc
      rw [serializeQuery_single] at hc
      rcases List.mem_append.mp hc with hm | hm
      · exact Or.inr (Or.inr ⟨p, List.mem_cons_self _ _, Or.inl hm⟩)
      · rcases List.mem_cons.mp hm with rfl | hm2
        · exact Or.inl rfl
        · exact Or.inr (Or.inr ⟨p, List.mem_cons_self _ _, Or.inr hm2⟩)
    | cons q rest2 =>
      intro c hc
      rw [serializeQuery_cons] at hc
      rcases List.mem_append.mp hc with hm | hm
      · rcases List.mem_append.mp hm with hm1 | hm1
        · exact Or.inr (Or.inr ⟨p, List.mem_cons_self _ _, Or.inl hm1⟩)
        · rcases List.mem_cons.mp hm1 with rfl | hm2
          · exact Or.inl rfl
          · exact Or.inr (Or.inr ⟨p, List.mem_cons_self _ _, Or.inr hm2⟩)
      · rcases List.mem_cons.mp hm with rfl | hm2
        · exact Or.inr (Or.inl rfl)
        · rcases ih c hm2 with h | h | ⟨r, hr, hc2⟩
          · exact Or.inl h
          · exact Or.inr (Or.inl h)
          · exact Or.inr (Or.inr ⟨r, List.mem_cons_of_mem _ hr, hc2⟩)

theorem isDigitChar_ne {c : Char} (h : isDigitChar c = true) :
    c ≠ '/' ∧ c ≠ '?' ∧ c ≠ '#' ∧ c ≠ ':' := by
  simp only [isDigitChar, Bool.and_eq_true, decide_eq_true_eq] at h
  have h1 : ('/' : Char).toNat = 47 := by decide
  have h2 : ('?' : Char).toNat = 63 := by decide
  have h3 : ('#' : Char).toNat = 35 := by decide
  have h4 : (':' : Char).toNat = 58 := by decide
  exact ⟨ne_of_toNat_ne (by omega), ne_of_toNat_ne (by omega), ne_of_toNat_ne (by omega),
    ne_of_toNat_ne (by omega)⟩

theorem urlPath_head (rest2 : List Char) : (urlPath rest2).head? = some '/' := by
  unfold urlPath
  split
  · rfl
  · rename_i hne
    have hAA : urlAfterAuth rest2 = (urlBeforeFrag rest2).dropWhile isAuthChar := by
      unfold urlAfterAuth urlAuth
      exact drop_length_takeWhile _ _
    cases hA : urlAfterAuth rest2 with
    | nil =>
      exact absurd (by unfold urlPath0; rw [hA]; rfl) hne
    | cons c0 r0 =>
      have hc0 : isAuthChar c0 = false := by
        apply head_dropWhile_false isAuthChar (urlBeforeFrag rest2)
        rw [← hAA, hA]
        rfl
      have hc1 : c0 = '/' ∨ c0 = '?' := by
        by_contra hcon
        push_neg at hcon
        simp [isAuthChar, hcon.1, hcon.2] at hc0
      rcases hc1 with rfl | rfl
      · unfold urlPath0
        rw [hA, List.takeWhile_cons_of_pos (by decide)]
        rfl
      · exfalso
        apply hne
        unfold urlPath0
        rw [hA]
        exact List.takeWhile_cons_of_neg (by decide)

theorem urlPath_chars (rest2 : List Char) : ∀ c ∈ urlPath rest2, c ≠ '?' ∧ c ≠ '#' := by
  intro c hc
  unfold urlPath at hc
  split at hc
  · rw [List.mem_singleton] at hc
    subst hc
    exact ⟨by decide, by decide⟩
  · unfold urlPath0 at hc
    have h1 := List.mem_takeWhile_imp hc
    have h2 : c ∈ urlAfterAuth rest2 := (List.takeWhile_sublist _).subset hc
    unfold urlAfterAuth at h2
    have h3 : c ∈ urlBeforeFrag rest2 := List.drop_subset _ _ h2
    unfold urlBeforeFrag at h3
    have h4 := List.mem_takeWhile_imp h3
    exact ⟨by simpa using h1, by simpa using h4⟩

theorem urlQuery_chars (rest2 : List Char) : ∀ c ∈ urlQuery rest2, c ≠ '#' := by
  intro c hc
  unfold urlQuery at hc
  split at hc
  · rename_i q heq
    have h2 : c ∈ (urlAfterAuth rest2).drop (urlPath0 rest2).length := by
      rw [heq]
      exact List.mem_cons_of_mem _ hc
    have h3 : c ∈ urlAfterAuth rest2 := List.drop_subset _ _ h2
    unfold urlAfterAuth at h3
    have h4 : c ∈ urlBeforeFrag rest2 := List.drop_subset _ _ h3
    unfold urlBeforeFrag at h4
    have h5 := List.mem_takeWhile_imp h4
    simpa using h5
  · simp at hc

theorem urlHost_chars (rest2 : List Char) :
    ∀ c ∈ urlHost rest2, isAuthChar c = true ∧ c ≠ ':' ∧ c ≠ '#' := by
  intro c hc
  unfold urlHost at hc
  have h1 := List.mem_takeWhile_imp hc
  have h2 : c ∈ urlAuth rest2 := (List.takeWhile_sublist _).subset hc
  unfold urlAuth at h2
  have h3 := List.mem_takeWhile_imp h2
  have h4 : c ∈ urlBeforeFrag rest2 := (List.takeWhile_sublist _).subset h2
  unfold urlBeforeFrag at h4
  have h5 := List.mem_takeWhile_imp h4
  exact ⟨h3, by simpa using h1, by simpa using h5⟩

/-- A successful parse yields well-formed components. -/
theorem parseUrl_inv {cs : List Char} {p : ParsedUrl} (h : parseUrl cs = some p) : UrlInv0 p := by
  unfold parseUrl at h
  split at h
  · exact absurd h (by simp)
  · rename_i hscheme
    split at h
    · rename_i rest2 heq
      split at h
      · exact absurd h (by simp)
      · rename_i hhost
        split at h
        · exact absurd h (by simp)
        · rename_i hport
          rw [Option.some.injEq] at h
          subst h
          refine ⟨hscheme, ?_, hhost, urlHost_chars rest2, by simpa using hport,
            urlPath_head rest2, urlPath_chars rest2, urlQuery_chars rest2⟩
          intro c hc
          unfold urlScheme at hc
          exact List.mem_takeWhile_imp hc
    · exact absurd h (by simp)

/-- Serialization inverts parsing on well-formed components with an
erased fragment — the situation after normalization. -/
theorem parseUrl_serializeUrl {p : ParsedUrl} (hp : UrlInv0 p) (hf : p.fragment = []) :
    parseUrl (serializeUrl p) = some p := by
  obtain ⟨psc, pho, ppo, ppa, pqu, pfr⟩ := p
  obtain ⟨hs, hsc, hh, hhc, hpd, hph, hpc, hqc⟩ := hp
  simp only at hs hsc hh hhc hpd hph hpc hqc hf
  subst hf
  obtain ⟨pt, hpath⟩ : ∃ pt, ppa = '/' :: pt := by
    cases hpp : ppa with
    | nil =>
      rw [hpp] at hph
      simp at hph
    | cons a t =>
      rw [hpp] at hph
      simp only [List.head?_cons, Option.some.injEq] at hph
      exact ⟨t, by rw [hph]⟩
  set pp := (if ppo = [] then [] else ':' :: ppo) with hpp_def
  set qp := (if pqu = [] then [] else '?' :: pqu) with hqp_def
  set R := pho ++ (pp ++ (ppa ++ qp)) with hR_def
  have hser : serializeUrl ⟨psc, pho, ppo, ppa, pqu, []⟩ = psc ++ ':' :: '/' :: '/' :: R := by
    unfold serializeUrl
    rw [hR_def]
    simp [List.append_assoc]
  have hppc : ∀ c ∈ pp, c = ':' ∨ isDigitChar c = true := by
    intro c hc
    by_cases hport0 : ppo = []
    · rw [hpp_def, if_pos hport0] at hc
      simp at hc
    · rw [hpp_def, if_neg hport0] at hc
      rcases List.mem_cons.mp hc with rfl | hc2
      · exact Or.inl rfl
      · exact Or.inr (List.all_eq_true.mp hpd c hc2)
  have hqpc : ∀ c ∈ qp, c = '?' ∨ c ∈ pqu := by
    intro c hc
    by_cases hq0 : pqu = []
    · rw [hqp_def, if_pos hq0] at hc
      simp at hc
    · rw [hqp_def, if_neg hq0] at hc
      rcases List.mem_cons.mp hc with rfl | hc2
      · exact Or.inl rfl
      · exact Or.inr hc2
  have hRnohash : ∀ c ∈ R, (c != '#') = true := by
    intro c hc
    rw [hR_def] at hc
    rcases List.mem_append.mp hc with hc | hc
    · simpa using (hhc c hc).2.2
    · rcases List.mem_append.mp hc with hc | hc
      · rcases hppc c hc with rfl | hd
        · decide
        · simpa using (isDigitChar_ne hd).2.2.1
      · rcases List.mem_append.mp hc with hc | hc
        · simpa using (hpc c hc).2
        · rcases hqpc c hc with rfl | hc2
          · decide
          · simpa using hqc c hc2
  have h1 : urlScheme (serializeUrl ⟨psc, pho, ppo, ppa, pqu, []⟩) = psc := by
    unfold urlScheme
    rw [hser]
    exact takeWhile_append_stop _ _ ':' _ hsc (by decide)
  have h2 : (serializeUrl ⟨psc, pho, ppo, ppa, pqu, []⟩).drop
      (urlScheme (serializeUrl ⟨psc, pho, ppo, ppa, pqu, []⟩)).length = ':' :: '/' :: '/' :: R := by
    rw [h1, hser]
    exact List.drop_left _ _
  have h3 : urlBeforeFrag R = R := by
    unfold urlBeforeFrag
    exact takeWhile_eq_self _ _ hRnohash
  have hR2 : R = (pho ++ pp) ++ '/' :: (pt ++ qp) := by
    rw [hR_def, hpath]
    simp [List.append_assoc]
  have hauthchars : ∀ c ∈ pho ++ pp, isAuthChar c = true := by
    intro c hc
    rcases List.mem_append.mp hc with hc | hc
    · exact (hhc c hc).1
    · rcases hppc c hc with rfl | hd
      · decide
      · obtain ⟨d1, d2, _, _⟩ := isDigitChar_ne hd
        simp [isAuthChar, d1, d2]
  have h4 : urlAuth R = pho ++ pp := by
    unfold urlAuth
    rw [h3, hR2]
    exact takeWhile_append_stop _ _ '/' _ hauthchars (by decide)
  have h5 : urlHost R = pho := by
    unfold urlHost
    rw [h4]
    by_cases hport0 : ppo = []
    · rw [hpp_def, if_pos hport0, List.append_nil]
      exact takeWhile_eq_self _ _ (fun c hc => by simpa using (hhc c hc).2.1)
    · rw [hpp_def, if_neg hport0]
      exact takeWhile_append_stop _ _ ':' _ (fun c hc => by simpa using (hhc c hc).2.1)
        (by decide)
  have h6 : urlPort R = ppo := by
    unfold urlPort
    rw [h4, h5, List.drop_left]
    by_cases hport0 : ppo = []
    · rw [hpp_def, if_pos hport0, hport0]
    · rw [hpp_def, if_neg hport0]
      rfl
  have h7 : urlAfterAuth R = ppa ++ qp := by
    unfold urlAfterAuth
    rw [h3, h4, hR2, List.drop_left, hpath]
    rfl
  have h8 : urlPath0 R = ppa := by
    unfold urlPath0
    rw [h7]
    by_cases hq0 : pqu = []
    · rw [hqp_def, if_pos hq0, List.append_nil]
      exact takeWhile_eq_self _ _ (fun c hc => by simpa using (hpc c hc).1)
    · rw [hqp_def, if_neg hq0]
      exact takeWhile_append_stop _ _ '?' _ (fun c hc => by simpa using (hpc c hc).1) (by decide)
  have h9 : urlPath R = ppa := by
    unfold urlPath
    rw [h8, if_neg (by rw [hpath]; simp)]
  have h10 : urlQuery R = pqu := by
    unfold urlQuery
    rw [h7, h8, List.drop_left]
    by_cases hq0 : pqu = []
    · rw [hqp_def, if_pos hq0, hq0]
    · rw [hqp_def, if_neg hq0]
      rfl
  have h11 : urlFragment R = [] := by
    unfold urlFragment
    rw [h3, List.drop_length]
  unfold parseUrl
  rw [h2, h1, if_neg hs]
  show (if urlHost R = [] then none
      else if (urlPort R).all isDigitChar = false then none
      else some (⟨psc, urlHost R, urlPort R, urlPath R, urlQuery R, urlFragment R⟩ : ParsedUrl)) =
    some ⟨psc, pho, ppo, ppa, pqu, []⟩
  rw [h5, if_neg hh, h6, if_neg (by simp [hpd]), h9, h10, h11]

theorem map_lowerChar_idem (l : List Char) :
    (l.map lowerChar).map lowerChar = l.map lowerChar := by
  rw [List.map_map]
  exact List.map_congr_left fun a _ => by simp [Function.comp, lowerChar_idem]

theorem head_slash {l : List Char} (h : l.head? = some '/') : ∃ t, l = '/' :: t := by
  cases hl : l with
  | nil =>
    rw [hl] at h
    simp at h
  | cons a t =>
    rw [hl] at h
    simp only [List.head?_cons, Option.some.injEq] at h
    exact ⟨t, by rw [h]⟩

/-- Normalization produces well-formed components with an erased
fragment. -/
theorem normParsed_inv {cs : List Char} {p : ParsedUrl} (h : parseUrl cs = some p) :
    UrlInv0 (normParsed p) ∧ (normParsed p).fragment = [] := by
  obtain ⟨hs, hsc, hh, hhc, hpd, hph, hpc, hqc⟩ := parseUrl_inv h
  refine ⟨⟨?_, ?_, ?_, ?_, ?_, ?_, ?_, ?_⟩, rfl⟩
  · simp [normParsed, normScheme, hs]
  · intro c hc
    simp only [normParsed, normScheme] at hc
    rw [List.mem_map] at hc
    obtain ⟨a, ha, rfl⟩ := hc
    exact isSchemeChar_lowerChar (hsc a ha)
  · simp [normParsed, normHost, hh]
  · intro c hc
    simp only [normParsed, normHost] at hc
    rw [List.mem_map] at hc
    obtain ⟨a, ha, rfl⟩ := hc
    obtain ⟨ha1, ha2, ha3⟩ := hhc a ha
    have ha4 : a ≠ '/' ∧ a ≠ '?' := by
      simpa [isAuthChar] using ha1
    refine ⟨?_, ?_, ?_⟩
    · have hb1 := lowerChar_ne_low ha4.1 (by decide)
      have hb2 := lowerChar_ne_low ha4.2 (by decide)
      simp [isAuthChar, hb1, hb2]
    · exact lowerChar_ne_low ha2 (by decide)
    · exact lowerChar_ne_low ha3 (by decide)
  · simp only [normParsed, normPort]
    split
    · rfl
    · exact hpd
  · exact hph
  · exact hpc
  · intro c hc
    simp only [normParsed, normQuery] at hc
    rcases serializeQuery_chars _ c hc with rfl | rfl | ⟨r, hr, hc2⟩
    · decide
    · decide
    · exact hqc c (parseQuery_chars_subset p.query r (sortPairs_mem hr) c hc2)

/-- Applying the normalization mutations to already-normalized
scheme/host/port components fixes them, whatever the path, query and
fragment. -/
theorem normParsed_parts (p : ParsedUrl) (path' q' f' : List Char) :
    normParsed ⟨normScheme p, normHost p, normPort p, path', q', f'⟩ =
      ⟨normScheme p, normHost p, normPort p, path',
        serializeQuery (sortPairs (parseQuery q')), []⟩ := by
  have hsch : normScheme (⟨normScheme p, normHost p, normPort p, path', q', f'⟩ : ParsedUrl) =
      normScheme p := by
    show (normScheme p).map lowerChar = normScheme p
    unfold normScheme
    exact map_lowerChar_idem p.scheme
  have hhost : normHost (⟨normScheme p, normHost p, normPort p, path', q', f'⟩ : ParsedUrl) =
      normHost p := by
    show (normHost p).map lowerChar = normHost p
    unfold normHost
    exact map_lowerChar_idem p.host
  have hport : normPort (⟨normScheme p, normHost p, normPort p, path', q', f'⟩ : ParsedUrl) =
      normPort p := by
    show (if (normScheme (⟨normScheme p, normHost p, normPort p, path', q', f'⟩ : ParsedUrl) =
          "http".data ∧ normPort p = "80".data) ∨
        (normScheme (⟨normScheme p, normHost p, normPort p, path', q', f'⟩ : ParsedUrl) =
          "https".data ∧ normPort p = "443".data)
      then [] else normPort p) = normPort p
    rw [hsch]
    by_cases hcond : (normScheme p = "http".data ∧ p.port = "80".data) ∨
        (normScheme p = "https".data ∧ p.port = "443".data)
    · have hp0 : normPort p = [] := by
        unfold normPort
        rw [if_pos hcond]
      rw [hp0]
      simp
    · have hp1 : normPort p = p.port := by
        unfold normPort
        rw [if_neg hcond]
      rw [hp1, if_neg hcond]
  show (⟨normScheme ⟨normScheme p, normHost p, normPort p, path', q', f'⟩,
      normHost ⟨normScheme p, normHost p, normPort p, path', q', f'⟩,
      normPort ⟨normScheme p, normHost p, normPort p, path', q', f'⟩, path',
      serializeQuery (sortPairs (parseQuery q')), []⟩ : ParsedUrl) = _
  rw [hsch, hhost, hport]

/-- Normalization is idempotent. -/
theorem normParsed_idem (p : ParsedUrl) :
    normParsed (normParsed p) = normParsed p := by
  have h3 := normParsed_parts p p.path (normQuery p) []
  have h4 : serializeQuery (sortPairs (parseQuery (normQuery p))) = normQuery p :=
    query_norm_idem p.query
  rw [show normParsed (normParsed p) =
    normParsed ⟨normScheme p, normHost p, normPort p, p.path, normQuery p, []⟩ from rfl, h3, h4]
  rfl

/-- One pass of the normalizer reaches a fixed point on every
`normStable` input. -/
theorem normalizeChars_idem {cs : List Char} (h : normStable cs = true) :
    normalizeChars (normalizeChars cs) = normalizeChars cs := by
  cases hp : parseUrl cs with
  | none =>
    have h1 : normalizeChars cs = cs := by
      unfold normalizeChars
      rw [hp]
    rw [h1]
    exact h1
  | some p =>
    obtain ⟨hinv, hfrag⟩ := normParsed_inv hp
    have hround : parseUrl (serializeUrl (normParsed p)) = some (normParsed p) :=
      parseUrl_serializeUrl hinv hfrag
    have hidem := normParsed_idem p
    by_cases htrim : trimCond p.path (serializeUrl (normParsed p)) = true
    · -- the slice fires; normStable supplies the benign-trim facts
      have hif : (if trimCond p.path (serializeUrl (normParsed p)) = true then
          normQuery p == [] && (p.path.dropLast == ['/'] ||
            !(p.path.dropLast.getLast? == some '/'))
        else true) = true := by
        have h2 := h
        unfold normStable at h2
        rw [hp] at h2
        exact h2
      rw [if_pos htrim, Bool.and_eq_true, Bool.or_eq_true] at hif
      obtain ⟨hq0', hbenign'⟩ := hif
      have hq0 : normQuery p = [] := by simpa using hq0'
      have hbenign : p.path.dropLast = ['/'] ∨ ¬(p.path.dropLast.getLast? = some '/') := by
        rcases hbenign' with hb | hb
        · exact Or.inl (by simpa using hb)
        · right
          intro he
          rw [he] at hb
          simp at hb
      have htrimc := htrim
      unfold trimCond at htrimc
      rw [Bool.and_eq_true] at htrimc
      have hlast : (serializeUrl (normParsed p)).getLast? = some '/' := by
        simpa using htrimc.1
      have hroot : p.path ≠ ['/'] := by
        simpa using htrimc.2
      set PRE := normScheme p ++ ':' :: '/' :: '/' :: normHost p ++
        (if normPort p = [] then [] else ':' :: normPort p) with hPRE
      have hserq : serializeUrl (normParsed p) = PRE ++ p.path := by
        show normScheme p ++ ':' :: '/' :: '/' :: normHost p ++
            (if normPort p = [] then [] else ':' :: normPort p) ++ p.path ++
            (if normQuery p = [] then [] else '?' :: normQuery p) ++
            (if ([] : List Char) = [] then [] else '#' :: ([] : List Char)) = PRE ++ p.path
        rw [hq0]
        simp [hPRE]
      obtain ⟨_, _, _, _, _, hph, _, _⟩ := parseUrl_inv hp
      obtain ⟨pt, hpath⟩ := head_slash hph
      have hplast : p.path.getLast? = some '/' := by
        rw [hserq, List.getLast?_append] at hlast
        cases hpl : p.path.getLast? with
        | none =>
          have hnil : p.path = [] := List.getLast?_eq_none_iff.mp hpl
          rw [hpath] at hnil
          simp at hnil
        | some x =>
          rw [hpl] at hlast
          have hx : x = '/' := by simpa using hlast
          rw [hx]
      have hpt : pt ≠ [] := by
        intro h0
        rw [h0] at hpath
        exact hroot hpath
      have hpne : p.path ≠ [] := by
        rw [hpath]
        simp
      have hdlne : p.path.dropLast ≠ [] := by
        rw [hpath]
        cases pt with
        | nil => exact absurd rfl hpt
        | cons a t => simp
      have hdrop : (serializeUrl (normParsed p)).dropLast = PRE ++ p.path.dropLast := by
        rw [hserq]
        exact List.dropLast_append_of_ne_nil _ hpne
      have hser2 : serializeUrl (⟨normScheme p, normHost p, normPort p, p.path.dropLast, [], []⟩ :
          ParsedUrl) = PRE ++ p.path.dropLast := by
        show normScheme p ++ ':' :: '/' :: '/' :: normHost p ++
            (if normPort p = [] then [] else ':' :: normPort p) ++ p.path.dropLast ++
            (if ([] : List Char) = [] then [] else '?' :: ([] : List Char)) ++
            (if ([] : List Char) = [] then [] else '#' :: ([] : List Char)) =
          PRE ++ p.path.dropLast
        simp [hPRE]
      have hinv2 : UrlInv0 ⟨normScheme p, normHost p, normPort p, p.path.dropLast, [], []⟩ := by
        obtain ⟨i1, i2, i3, i4, i5, _, i7, _⟩ := hinv
        refine ⟨i1, i2, i3, i4, i5, ?_, ?_, ?_⟩
        · show (p.path.dropLast).head? = some '/'
          rw [hpath]
          cases pt with
          | nil => exact absurd rfl hpt
          | cons a t => simp
        · intro c hc
          exact i7 c ((List.dropLast_sublist _).subset hc)
        · intro c hc
          simp at hc
      have hround2 : parseUrl (PRE ++ p.path.dropLast) =
          some ⟨normScheme p, normHost p, normPort p, p.path.dropLast, [], []⟩ := by
        rw [← hser2]
        exact parseUrl_serializeUrl hinv2 rfl
      have hidem2 : normParsed (⟨normScheme p, normHost p, normPort p, p.path.dropLast, [], []⟩ :
          ParsedUrl) = ⟨normScheme p, normHost p, normPort p, p.path.dropLast, [], []⟩ := by
        have h3 := normParsed_parts p p.path.dropLast [] []
        rw [h3]
        rfl
      have hnotrim2 : ¬(trimCond p.path.dropLast (PRE ++ p.path.dropLast) = true) := by
        unfold trimCond
        rw [Bool.and_eq_true]
        rintro ⟨hl2, hr2⟩
        have hl2a : (PRE ++ p.path.dropLast).getLast? = some '/' := by simpa using hl2
        have hr2a : p.path.dropLast ≠ ['/'] := by simpa using hr2
        rcases hbenign with hb | hb
        · exact hr2a hb
        · apply hb
          rw [List.getLast?_append] at hl2a
          cases hx : p.path.dropLast.getLast? with
          | none => exact absurd (List.getLast?_eq_none_iff.mp hx) hdlne
          | some x =>
            rw [hx] at hl2a
            have hxs : x = '/' := by simpa using hl2a
            rw [hxs]
      have hcs : normalizeChars cs = PRE ++ p.path.dropLast := by
        unfold normalizeChars
        rw [hp]
        show (if trimCond p.path (serializeUrl (normParsed p)) = true then
            (serializeUrl (normParsed p)).dropLast
          else serializeUrl (normParsed p)) = PRE ++ p.path.dropLast
        rw [if_pos htrim, hdrop]
      rw [hcs]
      unfold normalizeChars
      rw [hround2]
      show (if trimCond (⟨normScheme p, normHost p, normPort p, p.path.dropLast, [], []⟩ :
          ParsedUrl).path
          (serializeUrl (normParsed ⟨normScheme p, normHost p, normPort p, p.path.dropLast, [],
            []⟩)) = true then
          (serializeUrl (normParsed ⟨normScheme p, normHost p, normPort p, p.path.dropLast, [],
            []⟩)).dropLast
        else serializeUrl (normParsed ⟨normScheme p, normHost p, normPort p, p.path.dropLast, [],
          []⟩)) = PRE ++ p.path.dropLast
      rw [hidem2, hser2]
      rw [show (⟨normScheme p, normHost p, normPort p, p.path.dropLast, [], []⟩ :
        ParsedUrl).path = p.path.dropLast from rfl]
      rw [if_neg hnotrim2]
    · -- no slice: the serialized form is already a fixed point
      have hcs : normalizeChars cs = serializeUrl (normParsed p) := by
        unfold normalizeChars
        rw [hp]
        show (if trimCond p.path (serializeUrl (normParsed p)) = true then
            (serializeUrl (normParsed p)).dropLast
          else serializeUrl (normParsed p)) = serializeUrl (normParsed p)
        rw [if_neg htrim]
      rw [hcs]
      unfold normalizeChars
      rw [hround]
      show (if trimCond (normParsed p).path (serializeUrl (normParsed (normParsed p))) = true then
          (serializeUrl (normParsed (normParsed p))).dropLast
        else serializeUrl (normParsed (normParsed p))) = serializeUrl (normParsed p)
      rw [hidem, show (normParsed p).path = p.path from rfl, if_neg htrim]

/-- C9: amended. The claimed identity `linkSubjectId u = linkSubjectId (normalizeUrl u)`
does not hold for every URL string (see the counterexample theorem): `normalizeUrl`
slices exactly one trailing character per call, so paths ending in repeated slashes
need several passes. It does hold for every `normStable` input: every unparsable
string, and every parsable one where either no trailing-slash slice fires or the
slice removes the only surplus slash and the normalized query is empty, so that a
second pass has nothing left to slice. -/
theorem c9_amended_stable_idempotence (u : String) (h : normStable u.data = true) :
    linkSubjectId u = linkSubjectId (normalizeUrl u) := by
  have h2 : normalizeUrl (normalizeUrl u) = normalizeUrl u := by
    show String.mk (normalizeChars (normalizeChars u.data)) = String.mk (normalizeChars u.data)
    rw [normalizeChars_idem h]
  unfold linkSubjectId
  rw [h2]

/-- Witness: the scenario URL of the spec is `normStable` (its normal form keeps a
query, so no slice fires) and its subject id is stable under normalization. -/
theorem c9_amended_witness :
    normStable ("HTTPS://Example.com/a/?b=2&a=1#f").data = true ∧
      linkSubjectId "HTTPS://Example.com/a/?b=2&a=1#f" =
        linkSubjectId (normalizeUrl "HTTPS://Example.com/a/?b=2&a=1#f") :=
  ⟨by decide, c9_amended_stable_idempotence _ (by decide)⟩
